import Mathlib

/-!
Verification of the octave-stock-prediction core against its specification.

The Python source is shallowly embedded: pure functions become Lean
functions over `List Char` / `String`, numeric values are modelled as
exact rationals (every concrete numeric fact checked here is exactly
representable, and the corresponding IEEE-754 computations of the source
produce the same values on those inputs), `None` becomes `Option.none`,
and a Python exception becomes an `Option.none` result of the embedded
function.  Database tables are modelled as lists of rows in insertion
order; Python dicts (which preserve insertion order) are modelled as
association lists with first-occurrence update.

Sections:
  1. Python string primitives (`strip`, `replace`, `split`, `lower`, ...)
  2. `float()` literal parsing, `strptime` date formats, ISO calendar
  3. `scrape.py` value normalizers (`_clean_num`, `_f`, `_pct`,
     `_parse_scale`, `_parse_date`, ...)
  4. `scraper.py` normalizers (`parse_number`, `_match_label`)
  5. `scrape.py` financial table parser (`_parse_fin_table`, `_get`)
  6. `app/crud.py` kline aggregation and response formatting
  7. `scrape.py` period upsert (`upsert_income_periods`)
  8. Theorems for claims C1 .. C10
-/

/-! ## 1. Python string primitives -/

/-- Python whitespace characters recognised by `str.strip` / `str.split`
(ASCII subset; all inputs in this development are ASCII). -/
def pyWs (c : Char) : Bool :=
  c = ' ' ∨ c = '\t' ∨ c = '\n' ∨ c = '\r' ∨ c = '\x0b' ∨ c = '\x0c'

/-- `str.strip()` on a character list. -/
def stripC (cs : List Char) : List Char :=
  ((cs.dropWhile pyWs).reverse.dropWhile pyWs).reverse

/-- `str.replace(c, "")` for a single-character pattern: removes every
occurrence. -/
def removeAllC (t : Char) (cs : List Char) : List Char :=
  cs.filter (fun c => c ≠ t)

/-- `str.rstrip(c)` for a single-character argument. -/
def rstripC (t : Char) (cs : List Char) : List Char :=
  (cs.reverse.dropWhile (fun c => c = t)).reverse

/-- ASCII `str.lower()` on one character. -/
def lowC (c : Char) : Char :=
  if 'A' ≤ c ∧ c ≤ 'Z' then Char.ofNat (c.toNat + 32) else c

/-- ASCII `str.upper()` on one character. -/
def upC (c : Char) : Char :=
  if 'a' ≤ c ∧ c ≤ 'z' then Char.ofNat (c.toNat - 32) else c

/-- `str.lower()` on a character list. -/
def lowerC (cs : List Char) : List Char := cs.map lowC

/-- `str.split()` with no argument: split on runs of whitespace,
discarding empty fields. -/
def splitWsC : List Char → List (List Char)
  | [] => []
  | c :: rest =>
    if pyWs c then splitWsC rest
    else
      match splitWsC rest with
      | [] => [[c]]
      | w :: ws =>
        match rest with
        | [] => [[c]]
        | r :: _ => if pyWs r then [c] :: w :: ws else (c :: w) :: ws

/-- Split a list at every occurrence of a separator character (the
separator is dropped; empty fields are kept), as `str.split(sep)`. -/
def splitSepC (sep : Char) : List Char → List (List Char)
  | [] => [[]]
  | c :: rest =>
    if c = sep then [] :: splitSepC sep rest
    else
      match splitSepC sep rest with
      | [] => [[c]]
      | w :: ws => (c :: w) :: ws

/-- Is `pat` a prefix of `cs`? -/
def startsC : List Char → List Char → Bool
  | [], _ => true
  | _ :: _, [] => false
  | p :: ps, c :: cs => p = c ∧ startsC ps cs

/-- Python `pat in s` substring containment. -/
def containsC (pat : List Char) : List Char → Bool
  | [] => startsC pat []
  | c :: cs => startsC pat (c :: cs) ∨ containsC pat cs

/-- Python `s.endswith(pat)`. -/
def endsC (pat cs : List Char) : Bool :=
  startsC pat.reverse cs.reverse

/-- Python membership of a single character in a string. -/
def memC (t : Char) (cs : List Char) : Bool := cs.any (fun c => c = t)

/-- Digit test (ASCII). -/
def isDig (c : Char) : Bool := '0' ≤ c ∧ c ≤ '9'

/-- ASCII letter test (regex `[A-Za-z]`). -/
def isAl (c : Char) : Bool := ('A' ≤ c ∧ c ≤ 'Z') ∨ ('a' ≤ c ∧ c ≤ 'z')

/-- Regex word character (`\w` over ASCII): letter, digit or underscore. -/
def isWordC (c : Char) : Bool := isAl c ∨ isDig c ∨ c = '_'

/-- Numeric value of a digit character. -/
def digVal (c : Char) : Nat := c.toNat - 48

/-- Value of a digit run, most significant first. -/
def natOfDigits (ds : List Char) : Nat :=
  ds.foldl (fun a c => 10 * a + digVal c) 0

/-- Lexicographic `≤` on character lists (string order on ASCII dates). -/
def lexLeC : List Char → List Char → Bool
  | [], _ => true
  | _ :: _, [] => false
  | a :: as_, b :: bs =>
    if a = b then lexLeC as_ bs else decide (a.toNat < b.toNat)

/-- Association-list lookup (Python `dict[k]` / `dict.get(k)`). -/
def alookup {α : Type} (k : String) : List (String × α) → Option α
  | [] => none
  | (k', v) :: rest => if k' = k then some v else alookup k rest

/-- Association-list update with dict semantics: replace the value at the
first occurrence of the key (keeping its position), else append. -/
def aset {α : Type} (k : String) (v : α) : List (String × α) → List (String × α)
  | [] => [(k, v)]
  | (k', v') :: rest => if k' = k then (k, v) :: rest else (k', v') :: aset k v rest

/-- The keys of an association list, in order. -/
def akeys {α : Type} (l : List (String × α)) : List String := l.map Prod.fst

/-! ## 1b. Kernel-computable rational operations

Mathlib's `ℚ` arithmetic goes through `@[irreducible]` definitions, so the
embedded code uses these `mkRat`-based equivalents (each proved equal to
the standard operation below); concrete runs then evaluate by `decide`. -/

def qle (a b : ℚ) : Bool := decide (a.num * (b.den : Int) ≤ b.num * (a.den : Int))

def qadd (a b : ℚ) : ℚ := mkRat (a.num * b.den + b.num * a.den) (a.den * b.den)

def qmax (a b : ℚ) : ℚ := if qle a b then b else a

def qmin (a b : ℚ) : ℚ := if qle b a then b else a

def qneg (a : ℚ) : ℚ := mkRat (-a.num) a.den

def qabs (a : ℚ) : ℚ := if qle 0 a then a else qneg a

def qmulNat (a : ℚ) (n : Nat) : ℚ := mkRat (a.num * n) a.den

def qdivNat (a : ℚ) (n : Nat) : ℚ := mkRat a.num (a.den * n)

/-- Python `int(f)` for a float `f`: truncation toward zero. -/
def qtrunc (a : ℚ) : Int := a.num.tdiv a.den

theorem qle_iff (a b : ℚ) : qle a b = true ↔ a ≤ b := by
  rw [qle, decide_eq_true_iff]
  conv_rhs => rw [← Rat.num_divInt_den a, ← Rat.num_divInt_den b]
  rw [Rat.divInt_le_divInt (by exact_mod_cast a.den_pos) (by exact_mod_cast b.den_pos)]

theorem qadd_eq (a b : ℚ) : qadd a b = a + b := (Rat.add_def' a b).symm

theorem qmax_eq (a b : ℚ) : qmax a b = max a b := by
  rw [qmax, max_comm]
  rcases le_or_lt a b with h | h
  · rw [if_pos ((qle_iff a b).2 h), max_eq_left h]
  · rw [if_neg (by rw [qle_iff]; exact not_le.2 h), max_eq_right h.le]

theorem qmin_eq (a b : ℚ) : qmin a b = min a b := by
  rw [qmin]
  rcases le_or_lt b a with h | h
  · rw [if_pos ((qle_iff b a).2 h), min_eq_right h]
  · rw [if_neg (by rw [qle_iff]; exact not_le.2 h), min_eq_left h.le]

theorem qneg_eq (a : ℚ) : qneg a = -a := by
  rw [qneg, ← Rat.neg_mkRat, Rat.mkRat_self]

theorem qabs_eq (a : ℚ) : qabs a = |a| := by
  rw [qabs]
  rcases le_or_lt 0 a with h | h
  · rw [if_pos ((qle_iff 0 a).2 h), abs_of_nonneg h]
  · rw [if_neg (by rw [qle_iff]; exact not_le.2 h), abs_of_neg h, qneg_eq]

theorem natCast_eq_mkRat (n : Nat) : ((n : ℚ)) = mkRat (n : Int) 1 := by
  rw [Rat.mkRat_eq_divInt]
  rw [show (((1 : Nat)) : Int) = 1 from rfl, ← Rat.intCast_eq_divInt]
  norm_cast

theorem qmulNat_eq (a : ℚ) (n : Nat) : qmulNat a n = a * n := by
  rw [qmulNat]
  conv_rhs => rw [← Rat.mkRat_self a, natCast_eq_mkRat]
  rw [Rat.mkRat_mul_mkRat, Nat.mul_one]

theorem qdivNat_eq (a : ℚ) (n : Nat) (hn : n ≠ 0) : qdivNat a n = a / n := by
  have hInt : ((n : Int)) ≠ 0 := by exact_mod_cast hn
  have hQ : ((n : ℚ)) ≠ 0 := by exact_mod_cast hn
  rw [qdivNat, Rat.mkRat_eq_divInt, eq_div_iff hQ]
  rw [natCast_eq_mkRat, Rat.mkRat_eq_divInt, Rat.divInt_mul_divInt']
  push_cast
  rw [mul_one, Rat.divInt_mul_right hInt, Rat.num_divInt_den]

/-! ## 2. `float()`, `strptime` date formats, ISO calendar -/

/-- Split off the leading run satisfying `p` (`List.span` specialised). -/
def spanC (p : Char → Bool) (cs : List Char) : List Char × List Char :=
  cs.span p

/-- Sign prefix of a Python float literal: `(negative?, rest)`. -/
def pySign : List Char → Bool × List Char
  | [] => (false, [])
  | c :: r =>
    if c = '+' then (false, r)
    else if c = '-' then (true, r)
    else (false, c :: r)

/-- Exponent suffix of a Python float literal (after the mantissa):
`none` when malformed.  The sign of the exponent follows the same
grammar as the mantissa sign. -/
def pyExp : List Char → Option (Int × List Char)
  | [] => some (0, [])
  | c :: r =>
    if c = 'e' ∨ c = 'E' then
      let (es, r1) := pySign r
      let (ds, r2) := spanC isDig r1
      if ds.isEmpty then none
      else some ((if es then -(natOfDigits ds : Int) else (natOfDigits ds : Int)), r2)
    else some (0, c :: r)

/-- The numeric value of a finite Python float literal,
`±(int.frac) * 10^e`, as an exact rational. -/
def pyLitVal (neg : Bool) (ip fp : List Char) (e : Int) : ℚ :=
  let m : Int := (natOfDigits ip * 10 ^ fp.length + natOfDigits fp : Nat)
  let m : Int := if neg then -m else m
  mkRat (m * 10 ^ e.toNat) (10 ^ fp.length * 10 ^ (-e).toNat)

/-- Python `float(s)` on finite decimal literals (optional sign, digits,
optional fraction, optional exponent, surrounding whitespace); `none`
models a `ValueError`.  `inf` / `nan` tokens and PEP-515 underscores are
outside the inputs this development evaluates and are not modelled. -/
def pyFloat (s : String) : Option ℚ :=
  let cs := stripC s.toList
  let (neg, cs1) := pySign cs
  let (ip, cs2) := spanC isDig cs1
  let (fp, cs3) : List Char × List Char :=
    match cs2 with
    | '.' :: r => spanC isDig r
    | r => ([], r)
  let hasDot : Bool := match cs2 with | '.' :: _ => true | _ => false
  if ip.isEmpty ∧ (fp.isEmpty ∨ ¬hasDot) then none
  else
    match pyExp cs3 with
    | none => none
    | some (e, rest) => if rest.isEmpty then some (pyLitVal neg ip fp e) else none

/-- A proleptic Gregorian calendar date, as Python's `datetime.date`. -/
structure PDate where
  year : Nat
  month : Nat
  day : Nat
deriving DecidableEq, Repr

def isLeap (y : Nat) : Bool := y % 4 = 0 ∧ (y % 100 ≠ 0 ∨ y % 400 = 0)

def daysInMonth (y m : Nat) : Nat :=
  if m = 2 then (if isLeap y then 29 else 28)
  else if m = 4 ∨ m = 6 ∨ m = 9 ∨ m = 11 then 30
  else 31

/-- Days in the same year strictly before month `m`. -/
def daysBeforeMonth (y m : Nat) : Nat :=
  (List.range (m - 1)).foldl (fun a i => a + daysInMonth y (i + 1)) 0

/-- `datetime` validity (`MINYEAR = 1`, `MAXYEAR = 9999`). -/
def dateValid (y m d : Nat) : Bool :=
  1 ≤ y ∧ y ≤ 9999 ∧ 1 ≤ m ∧ m ≤ 12 ∧ 1 ≤ d ∧ d ≤ daysInMonth y m

/-- Python `date.toordinal()`: day 1 is 0001-01-01. -/
def toOrdinal (dt : PDate) : Nat :=
  365 * (dt.year - 1) + (dt.year - 1) / 4 + (dt.year - 1) / 400
    + daysBeforeMonth dt.year dt.month + dt.day - (dt.year - 1) / 100

/-- ISO weekday, Monday = 1 .. Sunday = 7 (0001-01-01 is a Monday). -/
def isoWeekday (dt : PDate) : Nat := (toOrdinal dt - 1) % 7 + 1

/-- Day of year, 1-based. -/
def dayOfYear (dt : PDate) : Nat := daysBeforeMonth dt.year dt.month + dt.day

/-- Weekday offset used by the 53-week-year rule. -/
def isoP (y : Nat) : Nat := (y + y / 4 - y / 100 + y / 400) % 7

/-- Number of ISO weeks in year `y` (52 or 53). -/
def isoWeeksInYear (y : Nat) : Nat :=
  if isoP y = 4 ∨ isoP (y - 1) = 3 then 53 else 52

/-- `date.isocalendar()`: the `(iso_year, iso_week)` pair. -/
def isoCalendar (dt : PDate) : Nat × Nat :=
  let wd := isoWeekday dt
  let w := (dayOfYear dt + 10 - wd) / 7
  if w = 0 then (dt.year - 1, isoWeeksInYear (dt.year - 1))
  else if w > isoWeeksInYear dt.year then (dt.year + 1, 1)
  else (dt.year, w)

/-- Regex fragment `1[0-2]|0[1-9]|[1-9]` — a month number as matched by
CPython's `strptime` `%m` directive (greedy alternation order). -/
def parseMonth2 : List Char → Option (Nat × List Char)
  | c1 :: c2 :: r =>
    if c1 = '1' ∧ (c2 = '0' ∨ c2 = '1' ∨ c2 = '2') then some (10 + digVal c2, r)
    else if c1 = '0' ∧ isDig c2 ∧ c2 ≠ '0' then some (digVal c2, r)
    else if isDig c1 ∧ c1 ≠ '0' then some (digVal c1, c2 :: r)
    else none
  | [c1] => if isDig c1 ∧ c1 ≠ '0' then some (digVal c1, []) else none
  | [] => none

/-- Regex fragment `3[01]|[12]\d|0[1-9]|[1-9]` — a day number as matched
by `strptime` `%d`. -/
def parseDay2 : List Char → Option (Nat × List Char)
  | c1 :: c2 :: r =>
    if c1 = '3' ∧ (c2 = '0' ∨ c2 = '1') then some (30 + digVal c2, r)
    else if (c1 = '1' ∨ c1 = '2') ∧ isDig c2 then some (10 * digVal c1 + digVal c2, r)
    else if c1 = '0' ∧ isDig c2 ∧ c2 ≠ '0' then some (digVal c2, r)
    else if isDig c1 ∧ c1 ≠ '0' then some (digVal c1, c2 :: r)
    else none
  | [c1] => if isDig c1 ∧ c1 ≠ '0' then some (digVal c1, []) else none
  | [] => none

/-- Regex fragment `\d\d\d\d` — a year as matched by `strptime` `%Y`. -/
def parseYear4 : List Char → Option (Nat × List Char)
  | c1 :: c2 :: c3 :: c4 :: r =>
    if isDig c1 ∧ isDig c2 ∧ isDig c3 ∧ isDig c4 then
      some (natOfDigits [c1, c2, c3, c4], r)
    else none
  | _ => none

/-- Literal character in a `strptime` format. -/
def expectC (t : Char) : List Char → Option (List Char)
  | c :: r => if c = t then some r else none
  | [] => none

/-- A literal whitespace in a `strptime` format matches `\s+`. -/
def skipWs1 (cs : List Char) : Option (List Char) :=
  let (ws, r) := spanC pyWs cs
  if ws.isEmpty then none else some r

/-- Abbreviated month names (`%b`), lowercase. -/
def monthAbbrevs : List String :=
  ["jan", "feb", "mar", "apr", "may", "jun", "jul", "aug", "sep", "oct", "nov", "dec"]

/-- Full month names (`%B`), lowercase. -/
def monthFulls : List String :=
  ["january", "february", "march", "april", "may", "june", "july", "august",
   "september", "october", "november", "december"]

/-- Case-insensitive match of one name from `names` (1-based index),
as `strptime` matches `%b` / `%B` (the name sets are mutually
non-prefixing, so first-match is unambiguous). -/
def matchMonthName (names : List String) (cs : List Char) : Option (Nat × List Char) :=
  go names 1 where
  go : List String → Nat → Option (Nat × List Char)
    | [], _ => none
    | n :: rest, i =>
      let p := n.toList
      if startsC p (lowerC cs) then some (i, cs.drop p.length)
      else go rest (i + 1)

/-- Final step shared by all `strptime` models: the whole string must be
consumed and the date must be constructible. -/
def finishDate (y m d : Nat) : List Char → Option PDate
  | [] => if dateValid y m d then some ⟨y, m, d⟩ else none
  | _ :: _ => none

/-- `datetime.strptime(s, "%Y-%m-%d")`. -/
def strptimeYmd (s : String) : Option PDate := do
  let (y, r) ← parseYear4 s.toList
  let r ← expectC '-' r
  let (m, r) ← parseMonth2 r
  let r ← expectC '-' r
  let (d, r) ← parseDay2 r
  finishDate y m d r

/-- `datetime.strptime(s, "%m/%d/%Y")`. -/
def strptimeMdy (s : String) : Option PDate := do
  let (m, r) ← parseMonth2 s.toList
  let r ← expectC '/' r
  let (d, r) ← parseDay2 r
  let r ← expectC '/' r
  let (y, r) ← parseYear4 r
  finishDate y m d r

/-- `datetime.strptime(s, "%b %d, %Y")` / `"%B %d, %Y"`. -/
def strptimeMonDY (names : List String) (s : String) : Option PDate := do
  let (m, r) ← matchMonthName names s.toList
  let r ← skipWs1 r
  let (d, r) ← parseDay2 r
  let r ← expectC ',' r
  let r ← skipWs1 r
  let (y, r) ← parseYear4 r
  finishDate y m d r

/-- `datetime.strptime(s, "%b %Y")` / `"%B %Y"` (day defaults to 1). -/
def strptimeMonY (names : List String) (s : String) : Option PDate := do
  let (m, r) ← matchMonthName names s.toList
  let r ← skipWs1 r
  let (y, r) ← parseYear4 r
  finishDate y m 1 r

/-! ## 3. `scrape.py` value normalizers -/

/-- A raw value held in a parsed-period dict: the scraped pipeline stores
either strings or already-parsed numbers. -/
inductive PVal where
  | s (v : String)
  | q (v : ℚ)
deriving DecidableEq

/-- `scrape.py _clean_num`: strip, remove commas and spaces, reject
sentinel tokens (on strings; `None`/empty handled by the caller wrapper). -/
def _clean_num (val : String) : Option String :=
  if val = "" then none
  else
    let v := removeAllC ' ' (removeAllC ',' (stripC val.toList))
    let v := String.mk v
    if v = "n/a" ∨ v = "-" ∨ v = "—" ∨ v = "N/A" ∨ v = "" ∨ v = "NotFound" ∨ v = "Not Found"
    then none else some v

/-- `scrape.py _f` on a string or numeric value. -/
def _f (val : PVal) : Option ℚ :=
  match val with
  | .q v => some v
  | .s str =>
    match _clean_num str with
    | none => none
    | some cleaned => pyFloat (String.mk (rstripC '%' cleaned.toList))

/-- `scrape.py _f` applied to `dict.get(k)` (`None` maps to `None`). -/
def _fOpt (val : Option PVal) : Option ℚ :=
  match val with
  | none => none
  | some v => _f v

/-- Does `str(val).strip()` contain a `%` character? -/
def pctMark (val : PVal) : Bool :=
  match val with
  | .s str => memC '%' (stripC str.toList)
  | .q _ => false

/-- `scrape.py _pct`: percentage-to-fraction with the ≤ 1.5 heuristic. -/
def _pct (val : PVal) : Option ℚ :=
  match _f val with
  | none => none
  | some raw =>
    if pctMark val then some (qdivNat raw 100)
    else if qle (qabs raw) (mkRat 3 2) then some raw
    else some (qdivNat raw 100)

/-- `scrape.py _i`: float parse then `int()` truncation. -/
def _i (val : Option PVal) : Option Int :=
  match _fOpt val with
  | none => none
  | some v => some (qtrunc v)

/-- `scrape.py _parse_date`: try `%Y-%m-%d`, `%b %d, %Y`, `%B %d, %Y`,
`%b %Y`, `%B %Y` in order on the stripped input; `None` input or no
matching format gives `None`. -/
def _parse_date (val : Option String) : Option PDate :=
  match val with
  | none => none
  | some v =>
    if v = "" then none
    else
      let v := String.mk (stripC v.toList)
      (strptimeYmd v).orElse fun _ =>
      (strptimeMonDY monthAbbrevs v).orElse fun _ =>
      (strptimeMonDY monthFulls v).orElse fun _ =>
      (strptimeMonY monthAbbrevs v).orElse fun _ =>
      strptimeMonY monthFulls v

/-- `scrape.py _strip_change`: `'22.21T +127.5%' → '22.21T'`; outer `none`
models the `IndexError` raised on a non-empty all-whitespace input. -/
def _strip_change (val : String) : Option String :=
  if val = "" then some val
  else ((splitWsC val.toList).map String.mk).head?

/-- `scrape.py _parse_scale`: parse a `T`/`B`/`M`-suffixed magnitude into
plain millions.  Outer `none` models an uncaught exception, the inner
option is the Python return value. -/
def _parse_scale (val : String) : Option (Option ℚ) :=
  if val = "" then some none
  else
    match _strip_change val with
    | none => none
    | some v0 =>
      let v := String.mk (stripC (removeAllC ',' v0.toList))
      if v = "n/a" ∨ v = "-" ∨ v = "—" ∨ v = "N/A" ∨ v = "" then some none
      else
        let cs := v.toList
        let up := cs.map upC
        if endsC ['T'] up then
          some ((pyFloat (String.mk (cs.dropLast))).map (fun q => qmulNat q 1000000))
        else if endsC ['B'] up then
          some ((pyFloat (String.mk (cs.dropLast))).map (fun q => qmulNat q 1000))
        else if endsC ['M'] up then
          some ((pyFloat (String.mk (cs.dropLast))).map (fun q => qmulNat q 1))
        else some (pyFloat v)

/-! ## 4. `scraper.py` normalizers -/

/-- `scraper.py parse_number`: strip, remove `,` `%` `$`, reject sentinel
tokens, apply a case-insensitive final-character suffix multiplier
`T→1e12, B→1e9, M→1e6, K→1e3`, else parse as a plain float; any parse
failure yields `None`. -/
def parse_number (s : String) : Option ℚ :=
  if s = "" then none
  else
    let cs := removeAllC '$' (removeAllC '%' (removeAllC ',' (stripC s.toList)))
    let v := String.mk cs
    if v = "" ∨ v = "n/a" ∨ v = "-" ∨ v = "—" ∨ v = "N/A" ∨ v = "None" then none
    else
      let applySuffix : Nat → Option ℚ := fun mult =>
        match pyFloat (String.mk cs.dropLast) with
        | some q => some (qmulNat q mult)
        | none => pyFloat v
      match cs.getLast? with
      | none => pyFloat v
      | some c =>
        if upC c = 'T' then applySuffix 1000000000000
        else if upC c = 'B' then applySuffix 1000000000
        else if upC c = 'M' then applySuffix 1000000
        else if upC c = 'K' then applySuffix 1000
        else pyFloat v

/-- `scraper.py _match_label`: first mapping entry whose key occurs as a
substring of the lowercased label. -/
def _match_label (label : String) (mapping : List (String × String)) : Option String :=
  let low := lowerC label.toList
  match mapping with
  | [] => none
  | (key, field) :: rest =>
    if containsC key.toList low then some field else _match_label label rest

/-! ## 5. `scrape.py` financial table parser -/

/-- Maximal runs of characters satisfying `keep` (used for regex word
boundaries). -/
def runsC (keep : Char → Bool) : List Char → List (List Char)
  | [] => []
  | c :: rest =>
    if ¬ keep c then runsC keep rest
    else
      match runsC keep rest with
      | [] => [[c]]
      | w :: ws =>
        match rest with
        | [] => [[c]]
        | r :: _ => if ¬ keep r then [c] :: w :: ws else (c :: w) :: ws

/-- `re.search(r"\bTTM\b|\bFY\b|\bCurrent\b|\bQ[1-4]\b", line)`: some
maximal word run equals one of the markers. -/
def isHeaderLine (l : String) : Bool :=
  (runsC isWordC l.toList).any fun r =>
    r = "TTM".toList ∨ r = "FY".toList ∨ r = "Current".toList ∨
    r = "Q1".toList ∨ r = "Q2".toList ∨ r = "Q3".toList ∨ r = "Q4".toList

/-- First header line and the lines after it. -/
def findHeader : List String → Option (String × List String)
  | [] => none
  | l :: rest => if isHeaderLine l then some (l, rest) else findHeader rest

/-- Step 2 of `_parse_fin_table`: collapse `"FY" "<year>"` token pairs. -/
def mergeFY : List String → List String
  | "FY" :: y :: rest => ("FY " ++ y) :: mergeFY rest
  | t :: rest => t :: mergeFY rest
  | [] => []

/-- One match of `[A-Za-z]{3}\s+\d{1,2},\s*\d{4}` anchored at the head:
`(matched, rest)`. -/
def matchDateAt (cs : List Char) : Option (List Char × List Char) :=
  match cs with
  | c1 :: c2 :: c3 :: r1 =>
    if isAl c1 ∧ isAl c2 ∧ isAl c3 then
      let (ws, r2) := spanC pyWs r1
      if ws.isEmpty then none
      else
        let (ds, r3) := spanC isDig r2
        if ds.length = 1 ∨ ds.length = 2 then
          match r3 with
          | ',' :: r4 =>
            let (ws2, r5) := spanC pyWs r4
            let (es, r6) := spanC isDig r5
            if 4 ≤ es.length then
              some ([c1, c2, c3] ++ ws ++ ds ++ [','] ++ ws2 ++ es.take 4,
                    es.drop 4 ++ r6)
            else none
          | _ => none
        else none
    else none
  | _ => none

/-- `re.findall` scan for the date pattern (fuel-indexed left-to-right
scan; each match consumes at least one character). -/
def findAllDates : Nat → List Char → List String
  | 0, _ => []
  | _, [] => []
  | f + 1, c :: rest =>
    match matchDateAt (c :: rest) with
    | some (m, r) => String.mk m :: findAllDates f r
    | none => findAllDates f rest

/-- `re.findall(r"[A-Za-z]{3}\s+\d{1,2},\s*\d{4}", s)`. -/
def findallDatePat (s : String) : List String :=
  findAllDates s.toList.length s.toList

/-- `re.search` for the same pattern. -/
def hasDateC (s : String) : Bool := ¬ (findallDatePat s).isEmpty

/-- Step 3 of `_parse_fin_table`: look in the next five lines for a
"Period Ending" marker; the line after it supplies the dates, falling
back to header labels. -/
def findPeriodDates : List String → Nat → List String → List String
  | _, 0, labels => labels
  | [], _, labels => labels
  | l :: rest, f + 1, labels =>
    if containsC "period ending".toList (lowerC l.toList) then
      match rest with
      | next :: _ =>
        let found := findallDatePat next
        if found.isEmpty then labels else found
      | [] => labels
    else findPeriodDates rest f labels

/-- Step 4 of `_parse_fin_table`: the lines following the first
date-bearing line among the next six, if any. -/
def findDataSuffix : List String → Nat → Option (List String)
  | _, 0 => none
  | [], _ => none
  | l :: rest, f + 1 => if hasDateC l then some rest else findDataSuffix rest f

/-- `re.match(r"^[\d\-\+\.,% ]+$", label)`. -/
def numOnlyLine (s : String) : Bool :=
  ¬ s.toList.isEmpty ∧ s.toList.all fun c =>
    isDig c ∨ c = '-' ∨ c = '+' ∨ c = '.' ∨ c = ',' ∨ c = '%' ∨ c = ' '

/-- `re.search(r"[\d\-\+]", line)`. -/
def hasNumTok (s : String) : Bool :=
  s.toList.any fun c => isDig c ∨ c = '-' ∨ c = '+'

/-- The enumerate loop of step 5, one period key at a time:
`values[idx]` is realised as the head of `values.drop idx`, so advancing
`idx` drops one element per step. -/
def buildRowGo : List String → List String → List (String × Option String) →
    List (String × Option String)
  | [], _, acc => acc
  | pd :: rest, vals, acc => buildRowGo rest (vals.drop 1) (aset pd vals.head? acc)

/-- Zip the value tokens positionally against the period keys:
`row_data[pdate] = values[idx] if idx < len(values) else None`. -/
def buildRow (pds : List String) (values : List String) :
    List (String × Option String) :=
  buildRowGo pds values []

/-- Step 5 of `_parse_fin_table`: the label/value-line pairing loop
(a final lone label line has no following value line and is dropped,
exactly as the `k + 1 < len(lines)` guard does). -/
def parseRows (pds : List String) (numCols : Nat) :
    List String → List (String × List (String × Option String)) →
    List (String × List (String × Option String))
  | [], acc => acc
  | [_], acc => acc
  | label :: vline :: rest2, acc =>
    if numOnlyLine label then parseRows pds numCols (vline :: rest2) acc
    else
      let values := (splitWsC vline.toList).map String.mk
      if ¬ values.isEmpty ∧ hasNumTok vline ∧ values.length ≤ numCols + 2 then
        parseRows pds numCols rest2 (aset label (buildRow pds values) acc)
      else parseRows pds numCols (vline :: rest2) acc

/-- `scrape.py _parse_fin_table`: parse one financial statement text
block into `{row_label: {period_key: raw_value}}`. -/
def _parse_fin_table (text : String) :
    List (String × List (String × Option String)) :=
  if text = "" ∨ String.mk (stripC text.toList) = "Not Found"
      ∨ String.mk (stripC text.toList) = "" then []
  else
    let lines := ((splitSepC '\n' (stripC text.toList)).map
      (fun l => String.mk (stripC l))).filter (fun l => l ≠ "")
    match findHeader lines with
    | none => []
    | some (headerLine, after) =>
      let period_labels := mergeFY ((splitWsC headerLine.toList).map String.mk)
      let period_dates := findPeriodDates after 5 period_labels
      let dataLines := (findDataSuffix after 6).getD after
      parseRows period_dates period_dates.length dataLines []

/-- `row.get(period)` on a parsed row (missing key and stored `None`
both give `None`). -/
def rowVal (row : List (String × Option String)) (period : String) : Option String :=
  match alookup period row with
  | none => none
  | some v => v

/-- The second half of `scrape.py _get`: resolve the period inside a row
(exact key, then substring fallback in either direction) and parse the
raw cell. -/
def rowResolve (r : List (String × Option String)) (period : String)
    (as_pct : Bool) : Option ℚ :=
  let val :=
    match rowVal r period with
    | some v => some v
    | none =>
      match r.find? (fun (kv : String × Option String) =>
        containsC period.toList kv.1.toList ∨ containsC kv.1.toList period.toList) with
      | some kv => kv.2
      | none => none
  match val with
  | none => none
  | some v => if as_pct then _pct (.s v) else _f (.s v)

/-- `scrape.py _get`: look up `(row_key, period)` in a parsed table with
case-insensitive partial label matching and substring period fallback. -/
def _get (table : List (String × List (String × Option String)))
    (row_key period : String) (as_pct : Bool) : Option ℚ :=
  let row :=
    match alookup row_key table with
    | some r => some r
    | none =>
      let rk := lowerC row_key.toList
      (table.find? fun (kv : String × List (String × Option String)) =>
        containsC rk (lowerC kv.1.toList)).map Prod.snd
  match row with
  | none => none
  | some r => rowResolve r period as_pct

/-! ## 6. `app/crud.py` kline aggregation and response formatting -/

/-- `crud._safe_float` on a nullable numeric database value:
`float(None)` raises `TypeError`, which `_safe_float` turns into `0.0`. -/
def _safe_float (v : Option ℚ) : ℚ := v.getD 0

/-- `crud._optional_float`: `float(val) if val else None` — both `None`
and a stored `0` are falsy. -/
def _optional_float (v : Option ℚ) : Option ℚ :=
  match v with
  | none => none
  | some x => if x = 0 then none else some x

/-- `crud._INTERVAL_MAP`. -/
def _INTERVAL_MAP : List (String × String) :=
  [("1d", "day"), ("daily", "day"), ("day", "day"),
   ("1w", "week"), ("weekly", "week"), ("week", "week"),
   ("1m", "month"), ("monthly", "month"), ("month", "month"),
   ("1y", "year"), ("yearly", "year"), ("year", "year")]

/-- `crud._get_aggregation_key`: normalise an interval string. -/
def _get_aggregation_key (interval : String) : String :=
  (alookup (String.mk (lowerC interval.toList)) _INTERVAL_MAP).getD "day"

/-- Zero-padded two-digit rendering (`{n:02d}`). -/
def pad2 (n : Nat) : String :=
  if n < 10 then "0" ++ toString n else toString n

/-- `crud._get_group_key`: grouping key for a date string; `none` models
the uncaught `ValueError` when the date matches neither `%Y-%m-%d` nor
`%m/%d/%Y`. -/
def _get_group_key (date_str : String) (agg_key : String) : Option String :=
  match (strptimeYmd date_str).orElse (fun _ => strptimeMdy date_str) with
  | none => none
  | some dt =>
    if agg_key = "week" then
      let iso := isoCalendar dt
      some (toString iso.1 ++ "-W" ++ pad2 iso.2)
    else if agg_key = "month" then
      some (toString dt.year ++ "-" ++ pad2 dt.month)
    else if agg_key = "year" then
      some (toString dt.year)
    else some date_str

/-- A stored daily kline row (the fields `get_stock_kline` reads). -/
structure KRow where
  date : String
  opn : Option ℚ
  high : Option ℚ
  low : Option ℚ
  close : Option ℚ
  volume : Option ℚ
deriving DecidableEq

/-- One aggregation group (the per-key dict built by `get_stock_kline`). -/
structure KGrp where
  date : String
  opn : ℚ
  high : ℚ
  low : ℚ
  close : ℚ
  volume : ℚ
deriving DecidableEq

/-- An output candle of the kline response. -/
structure Candle where
  date : String
  opn : ℚ
  high : ℚ
  low : ℚ
  close : ℚ
  volume : ℚ
deriving DecidableEq

/-- The initial group built from the first row seen for a key. -/
def initG (r : KRow) : KGrp :=
  { date := r.date
    opn := _safe_float r.opn
    high := _safe_float r.high
    low := _safe_float r.low
    close := _safe_float r.close
    volume := _safe_float (some ((r.volume).getD 0)) }

/-- The running update of an existing group by a later row of its key. -/
def updG (g : KGrp) (r : KRow) : KGrp :=
  { g with
      high := qmax g.high (_safe_float r.high)
      low := qmin g.low (_safe_float r.low)
      close := _safe_float r.close
      volume := qadd g.volume (_safe_float (some ((r.volume).getD 0))) }

/-- Fold one complete row into the groups association list (which merges
the source's `groups` dict with its `group_order` list: Python dicts
iterate in insertion order). -/
def insertRow (key : String) (r : KRow) :
    List (String × KGrp) → List (String × KGrp)
  | [] => [(key, initG r)]
  | (k, g) :: rest =>
    if k = key then (k, updG g r) :: rest
    else (k, g) :: insertRow key r rest

/-- Does this row fail the completeness check of the aggregation loop? -/
def rowIncomplete (r : KRow) : Bool :=
  r.opn = none ∨ r.high = none ∨ r.low = none ∨ r.close = none

/-- One iteration of the aggregation loop: skip an incomplete row, raise
(`none`) when the group key cannot be computed, else fold the row in. -/
def aggStep (agg_key : String) (st : List (String × KGrp)) (r : KRow) :
    Option (List (String × KGrp)) :=
  if rowIncomplete r then some st
  else
    match _get_group_key r.date agg_key with
    | none => none
    | some key => some (insertRow key r st)

/-- The grouping fold of `get_stock_kline` over the ascending daily rows;
`none` models a `ValueError` escaping from `_get_group_key`. -/
def aggKlines (rows : List KRow) (agg_key : String) : Option (List (String × KGrp)) :=
  rows.foldlM (aggStep agg_key) []

/-- The output loop over `reversed(group_order)`: append, then stop once
`len(klines) >= limit`. -/
def emitAux (limit : Nat) : List (String × KGrp) → Nat → List KGrp
  | [], _ => []
  | (_, g) :: rest, cnt =>
    if limit ≤ cnt + 1 then [g] else g :: emitAux limit rest (cnt + 1)

def emitGroups (st : List (String × KGrp)) (limit : Nat) : List KGrp :=
  emitAux limit st.reverse 0

def grpToCandle (g : KGrp) : Candle :=
  { date := g.date, opn := g.opn, high := g.high, low := g.low,
    close := g.close, volume := g.volume }

/-- The day-interval path: slice the last `limit` rows (`[-limit:]`, the
whole list when `limit = 0`), reverse, and keep rows whose open and close
are not null. -/
def dayCandles (rows : List KRow) (limit : Nat) : List Candle :=
  let tail :=
    if limit < rows.length then
      (if limit = 0 then rows else rows.drop (rows.length - limit))
    else rows
  (tail.reverse.filter (fun r => ¬ (r.opn = none ∨ r.close = none))).map fun r =>
    { date := r.date
      opn := _safe_float r.opn
      high := _safe_float r.high
      low := _safe_float r.low
      close := _safe_float r.close
      volume := _safe_float r.volume }

/-- The kline part of `crud.get_stock_kline`, from the fetched ascending
daily rows onward (stock resolution and the response envelope are plain
lookups outside the aggregation core); `none` models an uncaught
exception. -/
def get_stock_kline_core (rows : List KRow) (interval : String) (limit : Nat) :
    Option (List Candle) :=
  let agg_key := _get_aggregation_key interval
  if agg_key = "day" then some (dayCandles rows limit)
  else
    match aggKlines rows agg_key with
    | none => none
    | some st => some ((emitGroups st limit).map grpToCandle)

/-- A stored income-statement row, as read by `format_income_statement`
(`period_ending` is rendered with `str(...)` before being returned). -/
structure ISOut where
  id : Nat
  stock_id : Nat
  period_ending : String
  period_type : String
  revenue : Option ℚ
  operating_revenue : Option ℚ
  other_revenue : Option ℚ
  revenue_growth_yoy : Option ℚ
  cost_of_revenue : Option ℚ
  gross_profit : Option ℚ
  sga_expenses : Option ℚ
  operating_income : Option ℚ
  ebitda : Option ℚ
  ebit : Option ℚ
  interest_expense : Option ℚ
  pretax_income : Option ℚ
  income_tax : Option ℚ
  net_income : Option ℚ
  net_income_growth_yoy : Option ℚ
  eps_basic : Option ℚ
  eps_diluted : Option ℚ
  eps_growth_yoy : Option ℚ
  dividend_per_share : Option ℚ
  shares_basic : Option Int
  shares_diluted : Option Int
deriving DecidableEq

/-- `crud.format_income_statement`: every monetary field goes through
`_optional_float`; the shares fields pass through unchanged. -/
def format_income_statement (income_stmt : Option ISOut) : Option ISOut :=
  match income_stmt with
  | none => none
  | some r => some
    { id := r.id
      stock_id := r.stock_id
      period_ending := r.period_ending
      period_type := r.period_type
      revenue := _optional_float r.revenue
      operating_revenue := _optional_float r.operating_revenue
      other_revenue := _optional_float r.other_revenue
      revenue_growth_yoy := _optional_float r.revenue_growth_yoy
      cost_of_revenue := _optional_float r.cost_of_revenue
      gross_profit := _optional_float r.gross_profit
      sga_expenses := _optional_float r.sga_expenses
      operating_income := _optional_float r.operating_income
      ebitda := _optional_float r.ebitda
      ebit := _optional_float r.ebit
      interest_expense := _optional_float r.interest_expense
      pretax_income := _optional_float r.pretax_income
      income_tax := _optional_float r.income_tax
      net_income := _optional_float r.net_income
      net_income_growth_yoy := _optional_float r.net_income_growth_yoy
      eps_basic := _optional_float r.eps_basic
      eps_diluted := _optional_float r.eps_diluted
      eps_growth_yoy := _optional_float r.eps_growth_yoy
      dividend_per_share := _optional_float r.dividend_per_share
      shares_basic := r.shares_basic
      shares_diluted := r.shares_diluted }

/-! ## 7. `scrape.py` period upsert -/

/-- The field list written by `upsert_income_periods`. -/
def incomeFields : List String :=
  ["revenue", "operating_revenue", "other_revenue", "revenue_growth_yoy",
   "cost_of_revenue", "gross_profit", "sga_expenses", "other_opex", "total_opex",
   "operating_income", "ebitda", "ebit", "interest_expense", "pretax_income",
   "income_tax", "net_income", "net_income_growth_yoy", "minority_interest",
   "eps_basic", "eps_diluted", "eps_growth_yoy", "dividend_per_share",
   "dividend_growth_yoy", "shares_change_yoy", "gross_margin", "operating_margin",
   "profit_margin", "ebitda_margin", "effective_tax_rate",
   "free_cash_flow", "fcf_per_share", "fcf_margin"]

/-- A parsed period dict as handed to the upsert (`period.get(...)`):
`period_ending` / `period_type` entries are strings when present, the
data entries are raw strings or already-parsed numbers. -/
structure PeriodDict where
  period_ending : Option String
  period_type : Option String
  vals : String → Option PVal

/-- A persisted `IncomeStatement` row: identity triple plus the
dynamically assigned numeric fields. -/
structure ISRow where
  stock_id : Nat
  period_ending : PDate
  period_type : String
  fields : List (String × Option ℚ)
  shares_basic : Option Int
  shares_diluted : Option Int
deriving DecidableEq

/-- The `setattr` loop of `upsert_income_periods`: every listed field is
assigned `_f(period.get(f))`, and the two share counts `_i(...)`. -/
def applyFields (p : PeriodDict) (r : ISRow) : ISRow :=
  { r with
      fields := incomeFields.map (fun f => (f, _fOpt (p.vals f)))
      shares_basic := _i (p.vals "shares_basic")
      shares_diluted := _i (p.vals "shares_diluted") }

/-- Identity match used by the `filter_by(...)` lookup. -/
def idMatch (sid : Nat) (pe : PDate) (pt : String) (r : ISRow) : Bool :=
  r.stock_id = sid ∧ r.period_ending = pe ∧ r.period_type = pt

/-- The fresh row constructed by the upsert when no row matches. -/
def freshRow (sid : Nat) (pe : PDate) (pt : String) : ISRow :=
  { stock_id := sid, period_ending := pe, period_type := pt,
    fields := [], shares_basic := none, shares_diluted := none }

/-- `query(...).first()` + update-or-`session.add`: the first row with the
identity triple is updated in place, otherwise a fresh row is appended. -/
def upsertList (sid : Nat) (pe : PDate) (pt : String) (p : PeriodDict) :
    List ISRow → List ISRow
  | [] => [applyFields p (freshRow sid pe pt)]
  | r :: rest =>
    if idMatch sid pe pt r then applyFields p r :: rest
    else r :: upsertList sid pe pt p rest

/-- One iteration of the `upsert_income_periods` loop: periods whose
`period_ending` does not parse or whose `period_type` is missing/empty
are skipped. -/
def upsertOne (table : List ISRow) (sid : Nat) (p : PeriodDict) : List ISRow :=
  match _parse_date p.period_ending with
  | none => table
  | some pe =>
    match p.period_type with
    | none => table
    | some pt => if pt = "" then table else upsertList sid pe pt p table

/-- `scrape.py upsert_income_periods` over `data["income_periods"]`. -/
def upsert_income_periods (table : List ISRow) (sid : Nat)
    (periods : List PeriodDict) : List ISRow :=
  periods.foldl (fun t p => upsertOne t sid p) table

/-- Number of stored rows with a given identity triple. -/
def countId (sid : Nat) (pe : PDate) (pt : String) (table : List ISRow) : Nat :=
  (table.filter (idMatch sid pe pt)).length

/-! ## 8. Supporting definitions and lemmas for the claims -/

/-- Boolean membership in a key list. -/
def memS (k : String) : List String → Bool
  | [] => false
  | x :: rest => x = k ∨ memS k rest

/-- Keys in order of first occurrence. -/
def firstSeen : List String → List String
  | [] => []
  | k :: rest => k :: (firstSeen rest).filter (fun x => x ≠ k)

/-- The input rows are in ascending date order (string order, as the
database delivers them). -/
def datesAscending : List KRow → Bool
  | [] => true
  | [_] => true
  | r1 :: r2 :: rest =>
    lexLeC r1.date.toList r2.date.toList ∧ datesAscending (r2 :: rest)

/-- `(group key, row)` pairs of the complete rows, in row order. -/
def bucketPairs (rows : List KRow) (agg : String) : List (String × KRow) :=
  rows.filterMap fun r =>
    if rowIncomplete r then none
    else (_get_group_key r.date agg).map fun k => (k, r)

/-- The grouping fold, exception-free form. -/
def aggFold (ps : List (String × KRow)) (st : List (String × KGrp)) :
    List (String × KGrp) :=
  ps.foldl (fun st kr => insertRow kr.1 kr.2 st) st

/-- The complete rows that fall into bucket `k`. -/
def bucketRows (rows : List KRow) (agg : String) (k : String) : List KRow :=
  rows.filter fun r =>
    rowIncomplete r = false ∧ _get_group_key r.date agg = some k

/-- The bucket keys of the complete rows, in row order. -/
def bucketKeys (rows : List KRow) (agg : String) : List String :=
  (rows.filter fun r => rowIncomplete r = false).filterMap
    fun r => _get_group_key r.date agg

/-- The group a key ends up with, as a function of what the state held
and which of the key's rows were folded in. -/
def mergeG (og : Option KGrp) (rs : List KRow) : Option KGrp :=
  match og, rs with
  | none, [] => none
  | some g, rs => some (rs.foldl updG g)
  | none, r0 :: rs => some (rs.foldl updG (initG r0))

theorem aggKlines_eq_fold (rows : List KRow) (agg : String)
    (h : ∀ r ∈ rows, rowIncomplete r = false → (_get_group_key r.date agg).isSome) :
    aggKlines rows agg = some (aggFold (bucketPairs rows agg) []) := by
  suffices H : ∀ st, List.foldlM (aggStep agg) st rows
      = some (aggFold (bucketPairs rows agg) st) from H []
  induction rows with
  | nil => intro st; rfl
  | cons r rest ih =>
    intro st
    rw [List.foldlM_cons]
    by_cases hr : rowIncomplete r
    · rw [show aggStep agg st r = some st from by simp [aggStep, hr]]
      show List.foldlM (aggStep agg) st rest = _
      rw [ih (fun x hx => h x (List.mem_cons_of_mem r hx)) st]
      simp [bucketPairs, List.filterMap_cons, hr]
    · rcases Option.isSome_iff_exists.1
        (h r (List.mem_cons_self r rest) (by simpa using hr)) with ⟨k, hk⟩
      rw [show aggStep agg st r = some (insertRow k r st) from by simp [aggStep, hr, hk]]
      show List.foldlM (aggStep agg) (insertRow k r st) rest = _
      rw [ih (fun x hx => h x (List.mem_cons_of_mem r hx))]
      simp only [bucketPairs, List.filterMap_cons, hr, hk]
      simp [aggFold, Option.map_some]

theorem alookup_insertRow (q k : String) (r : KRow) (st : List (String × KGrp)) :
    alookup q (insertRow k r st) =
      if k = q then
        (match alookup q st with
          | some g => some (updG g r)
          | none => some (initG r))
      else alookup q st := by
  induction st with
  | nil => simp [insertRow, alookup]
  | cons hd tl ih =>
    obtain ⟨k0, g0⟩ := hd
    by_cases h0 : k0 = k
    · subst h0
      by_cases hq : k0 = q
      · subst hq; simp [insertRow, alookup]
      · simp [insertRow, alookup, hq]
    · by_cases hq : k0 = q
      · subst hq
        have : ¬ k = k0 := fun hc => h0 hc.symm
        simp [insertRow, alookup, h0, this]
      · simp [insertRow, alookup, h0, hq, ih]

theorem akeys_insertRow (k : String) (r : KRow) (st : List (String × KGrp)) :
    akeys (insertRow k r st) =
      if memS k (akeys st) then akeys st else akeys st ++ [k] := by
  induction st with
  | nil => simp [insertRow, akeys, memS]
  | cons hd tl ih =>
    obtain ⟨k0, g0⟩ := hd
    by_cases h0 : k0 = k
    · subst h0; simp [insertRow, akeys, memS]
    · have hmemeq : memS k (akeys ((k0, g0) :: tl)) = memS k (akeys tl) := by
        simp [akeys, memS, h0]
      rw [show insertRow k r ((k0, g0) :: tl) = (k0, g0) :: insertRow k r tl
            from by simp [insertRow, h0]]
      rw [show akeys ((k0, g0) :: insertRow k r tl) = k0 :: akeys (insertRow k r tl)
            from rfl]
      rw [ih, hmemeq]
      by_cases hmem : memS k (List.map Prod.fst tl)
      · have hm : memS k (akeys tl) = true := hmem
        simp only [hm, hmem, if_true]
        rfl
      · have hm : memS k (akeys tl) = false := by simpa using hmem
        simp only [hm, hmem, if_false, Bool.false_eq_true]
        rfl

theorem memS_append (x : String) (zs : List String) :
    ∀ ys, memS x (ys ++ zs) = (memS x ys || memS x zs) := by
  intro ys
  induction ys with
  | nil => simp [memS]
  | cons y yt ih =>
    by_cases hy : y = x <;> simp [memS, ih, hy]

theorem alookup_aggFold (ps : List (String × KRow)) :
    ∀ st q, alookup q (aggFold ps st) =
      mergeG (alookup q st) ((ps.filter fun kr => kr.1 = q).map Prod.snd) := by
  induction ps with
  | nil =>
    intro st q
    simp only [aggFold, List.foldl_nil, List.filter_nil, List.map_nil]
    cases alookup q st <;> rfl
  | cons hd rest ih =>
    intro st q
    obtain ⟨k, r⟩ := hd
    have hfold : aggFold ((k, r) :: rest) st = aggFold rest (insertRow k r st) := rfl
    rw [hfold, ih (insertRow k r st) q, alookup_insertRow]
    by_cases hk : k = q
    · subst hk
      simp only [if_pos rfl, List.filter_cons, decide_True, List.map_cons]
      cases h : alookup k st
      · simp [mergeG]
      · simp [mergeG]
    · simp only [if_neg hk, List.filter_cons]
      have hd : (decide ((k, r).1 = q) : Bool) = false := by simp [hk]
      rw [hd]
      simp

theorem akeys_aggFold (ps : List (String × KRow)) :
    ∀ st, akeys (aggFold ps st) =
      akeys st ++ (firstSeen (ps.map Prod.fst)).filter
        (fun x => memS x (akeys st) = false) := by
  induction ps with
  | nil => intro st; simp [aggFold, firstSeen]
  | cons hd rest ih =>
    intro st
    obtain ⟨k, r⟩ := hd
    rw [show aggFold ((k, r) :: rest) st = aggFold rest (insertRow k r st) from rfl,
        ih (insertRow k r st), akeys_insertRow]
    simp only [List.map_cons, firstSeen, List.filter_cons, List.filter_filter]
    by_cases hmem : memS k (akeys st)
    · simp only [hmem, if_true]
      norm_num
      apply List.filter_congr
      intro x _
      by_cases hx : x = k
      · subst hx; simp [hmem]
      · simp [hx]
    · have hmf : memS k (akeys st) = false := by simpa using hmem
      simp only [hmf, Bool.false_eq_true, if_false]
      norm_num
      apply List.filter_congr
      intro x _
      by_cases hx : x = k
      · subst hx
        have h1 : memS x (akeys st ++ [x]) = true := by
          rw [memS_append]
          simp [memS]
        simp [h1]
      · have hkx : ¬ (k = x) := fun hc => hx hc.symm
        have h1 : memS x (akeys st ++ [k]) = memS x (akeys st) := by
          rw [memS_append]
          simp [memS, hkx]
        rw [h1]
        simp [hx]

theorem foldl_updG_date (rs : List KRow) : ∀ g, (rs.foldl updG g).date = g.date := by
  induction rs with
  | nil => intro g; rfl
  | cons r rest ih => intro g; rw [List.foldl_cons, ih]; rfl

theorem foldl_updG_opn (rs : List KRow) : ∀ g, (rs.foldl updG g).opn = g.opn := by
  induction rs with
  | nil => intro g; rfl
  | cons r rest ih => intro g; rw [List.foldl_cons, ih]; rfl

theorem foldl_updG_high (rs : List KRow) :
    ∀ g, (rs.foldl updG g).high
      = (rs.map fun r => _safe_float r.high).foldl max g.high := by
  induction rs with
  | nil => intro g; rfl
  | cons r rest ih =>
    intro g
    rw [List.foldl_cons, List.map_cons, List.foldl_cons, ih]
    rw [show (updG g r).high = qmax g.high (_safe_float r.high) from rfl, qmax_eq]

theorem foldl_updG_low (rs : List KRow) :
    ∀ g, (rs.foldl updG g).low
      = (rs.map fun r => _safe_float r.low).foldl min g.low := by
  induction rs with
  | nil => intro g; rfl
  | cons r rest ih =>
    intro g
    rw [List.foldl_cons, List.map_cons, List.foldl_cons, ih]
    rw [show (updG g r).low = qmin g.low (_safe_float r.low) from rfl, qmin_eq]

theorem foldl_updG_close (rs : List KRow) :
    ∀ g, (rs.foldl updG g).close
      = (match rs.getLast? with
          | none => g.close
          | some rl => _safe_float rl.close) := by
  induction rs with
  | nil => intro g; rfl
  | cons r rest ih =>
    intro g
    rw [List.foldl_cons, ih (updG g r)]
    cases hrl : rest.getLast?
    · have hnil : rest = [] := by
        cases rest with
        | nil => rfl
        | cons a t => simp [List.getLast?_concat, List.getLast?] at hrl
      subst hnil
      rfl
    · cases rest with
      | nil => simp at hrl
      | cons a t =>
        rw [List.getLast?_cons_cons, hrl]

theorem foldl_updG_volume (rs : List KRow) :
    ∀ g, (rs.foldl updG g).volume
      = g.volume + (rs.map fun r => (r.volume).getD 0).sum := by
  induction rs with
  | nil => intro g; simp
  | cons r rest ih =>
    intro g
    rw [List.foldl_cons, ih (updG g r), List.map_cons, List.sum_cons]
    rw [show (updG g r).volume
        = qadd g.volume (_safe_float (some ((r.volume).getD 0))) from rfl, qadd_eq]
    rw [show _safe_float (some ((r.volume).getD 0)) = (r.volume).getD 0 from rfl]
    ring

theorem bucketPairs_filter (rows : List KRow) (agg q : String) :
    ((bucketPairs rows agg).filter fun kr => kr.1 = q).map Prod.snd
      = bucketRows rows agg q := by
  induction rows with
  | nil => rfl
  | cons r rest ih =>
    by_cases hr : rowIncomplete r
    · have h1 : bucketPairs (r :: rest) agg = bucketPairs rest agg := by
        simp [bucketPairs, List.filterMap_cons, hr]
      have h2 : bucketRows (r :: rest) agg q = bucketRows rest agg q := by
        simp [bucketRows, List.filter_cons, hr]
      rw [h1, h2, ih]
    · have hrf : rowIncomplete r = false := by simpa using hr
      cases hk : _get_group_key r.date agg with
      | none =>
        have h1 : bucketPairs (r :: rest) agg = bucketPairs rest agg := by
          simp [bucketPairs, List.filterMap_cons, hrf, hk]
        have h2 : bucketRows (r :: rest) agg q = bucketRows rest agg q := by
          simp [bucketRows, List.filter_cons, hrf, hk]
        rw [h1, h2, ih]
      | some k =>
        have h1 : bucketPairs (r :: rest) agg = (k, r) :: bucketPairs rest agg := by
          simp [bucketPairs, List.filterMap_cons, hrf, hk]
        rw [h1]
        by_cases hkq : k = q
        · subst hkq
          have h2 : bucketRows (r :: rest) agg k = r :: bucketRows rest agg k := by
            simp [bucketRows, List.filter_cons, hrf, hk]
          rw [h2, ← ih]
          simp [List.filter_cons]
        · have h2 : bucketRows (r :: rest) agg q = bucketRows rest agg q := by
            simp [bucketRows, List.filter_cons, hrf, hk, hkq]
          rw [h2, ← ih]
          simp [List.filter_cons, hkq]

theorem bucketPairs_keys (rows : List KRow) (agg : String) :
    (bucketPairs rows agg).map Prod.fst = bucketKeys rows agg := by
  induction rows with
  | nil => rfl
  | cons r rest ih =>
    by_cases hr : rowIncomplete r
    · simp only [bucketPairs, bucketKeys, List.filterMap_cons, List.filter_cons, hr,
        if_pos]
      simpa [bucketPairs, bucketKeys] using ih
    · have hrf : rowIncomplete r = false := by simpa using hr
      cases hk : _get_group_key r.date agg with
      | none =>
        simp only [bucketPairs, bucketKeys, List.filterMap_cons, List.filter_cons,
          hrf, hk]
        simpa [bucketPairs, bucketKeys, hrf, hk] using ih
      | some k =>
        simp only [bucketPairs, bucketKeys, List.filterMap_cons, List.filter_cons,
          hrf, hk]
        simpa [bucketPairs, bucketKeys, hrf, hk] using ih

theorem emitAux_take (limit : Nat) (l : List (String × KGrp)) :
    ∀ cnt, cnt < limit → emitAux limit l cnt = (l.take (limit - cnt)).map Prod.snd := by
  induction l with
  | nil => intro cnt _; simp [emitAux]
  | cons hd rest ih =>
    intro cnt hcnt
    obtain ⟨k, g⟩ := hd
    by_cases hstop : limit ≤ cnt + 1
    · have heq : limit - cnt = 1 := by omega
      simp [emitAux, hstop, heq]
    · have h1 : limit - cnt = (limit - (cnt + 1)) + 1 := by omega
      rw [show emitAux limit ((k, g) :: rest) cnt
          = g :: emitAux limit rest (cnt + 1) from by simp [emitAux, hstop]]
      rw [ih (cnt + 1) (by omega), h1, List.take_succ_cons, List.map_cons]

theorem emitGroups_take (st : List (String × KGrp)) (limit : Nat) (h : 1 ≤ limit) :
    emitGroups st limit = (st.reverse.take limit).map Prod.snd := by
  rw [emitGroups, emitAux_take limit st.reverse 0 (by omega), Nat.sub_zero]

/-- The seven-day scenario of the claim: daily rows 2024-01-01..07 with
closes 10..16, `open = close`, `high = close + 1`, `low = close - 1`,
volume 100 each. -/
def week7Rows : List KRow :=
  [⟨"2024-01-01", some 10, some 11, some 9, some 10, some 100⟩,
   ⟨"2024-01-02", some 11, some 12, some 10, some 11, some 100⟩,
   ⟨"2024-01-03", some 12, some 13, some 11, some 12, some 100⟩,
   ⟨"2024-01-04", some 13, some 14, some 12, some 13, some 100⟩,
   ⟨"2024-01-05", some 14, some 15, some 13, some 14, some 100⟩,
   ⟨"2024-01-06", some 15, some 16, some 14, some 15, some 100⟩,
   ⟨"2024-01-07", some 16, some 17, some 15, some 16, some 100⟩]

/-- C1: for every ascending-by-date daily kline list and a week/month/year
interval, the aggregation skips rows with a null open/high/low/close,
groups the rest by bucket key in first-seen order, and per bucket takes
open of the first row, running max of highs, running min of lows, close
of the last row, and the volume sum; buckets are emitted most-recent-first
(the reverse of the ascending first-seen order), truncated to the
requested limit (every API call site validates `limit ≥ 1`).  In
particular the 2024-01-01..07 scenario at `week`/`limit 1` yields the
single bucket `open=10, high=17, low=9, close=16, volume=700`. -/
theorem C1_kline_aggregation
    (rows : List KRow) (interval : String) (limit : Nat) (agg : String)
    (hagg : agg = _get_aggregation_key interval)
    (hwmy : agg = "week" ∨ agg = "month" ∨ agg = "year")
    (hdates : ∀ r ∈ rows, rowIncomplete r = false → (_get_group_key r.date agg).isSome)
    (hasc : datesAscending rows = true)
    (hlim : 1 ≤ limit) :
    ∃ st, aggKlines rows agg = some st
      ∧ get_stock_kline_core rows interval limit
          = some (((st.reverse.take limit).map Prod.snd).map grpToCandle)
      ∧ akeys st = firstSeen (bucketKeys rows agg)
      ∧ (∀ k g, alookup k st = some g →
          ∃ r0 rs, bucketRows rows agg k = r0 :: rs
            ∧ g.date = r0.date
            ∧ g.opn = _safe_float r0.opn
            ∧ g.high = (rs.map fun r => _safe_float r.high).foldl max (_safe_float r0.high)
            ∧ g.low = (rs.map fun r => _safe_float r.low).foldl min (_safe_float r0.low)
            ∧ (∃ rl, (r0 :: rs).getLast? = some rl ∧ g.close = _safe_float rl.close)
            ∧ g.volume = ((r0 :: rs).map fun r => (r.volume).getD 0).sum)
      ∧ get_stock_kline_core week7Rows "week" 1
          = some [⟨"2024-01-01", 10, 17, 9, 16, 700⟩] := by
  have hfold := aggKlines_eq_fold rows agg hdates
  refine ⟨aggFold (bucketPairs rows agg) [], hfold, ?_, ?_, ?_, ?_⟩
  · have hday : _get_aggregation_key interval ≠ "day" := by
      rw [← hagg]
      rcases hwmy with h | h | h <;> rw [h] <;> decide
    rw [show get_stock_kline_core rows interval limit
        = (if _get_aggregation_key interval = "day"
            then some (dayCandles rows limit)
            else
              match aggKlines rows (_get_aggregation_key interval) with
              | none => none
              | some st => some ((emitGroups st limit).map grpToCandle)) from rfl]
    rw [if_neg hday, ← hagg, hfold]
    rw [show (match some (aggFold (bucketPairs rows agg) []) with
          | none => (none : Option (List Candle))
          | some st => some ((emitGroups st limit).map grpToCandle))
        = some ((emitGroups (aggFold (bucketPairs rows agg) []) limit).map grpToCandle)
        from rfl]
    rw [emitGroups_take _ _ hlim]
  · rw [akeys_aggFold, bucketPairs_keys]
    simp [akeys, memS]
  · intro k g hkg
    rw [alookup_aggFold] at hkg
    rw [show alookup k ([] : List (String × KGrp)) = none from rfl] at hkg
    rw [bucketPairs_filter] at hkg
    cases hbr : bucketRows rows agg k with
    | nil => rw [hbr] at hkg; simp [mergeG] at hkg
    | cons r0 rs =>
      rw [hbr] at hkg
      have hg : g = rs.foldl updG (initG r0) := by
        simpa [mergeG] using hkg.symm
      refine ⟨r0, rs, rfl, ?_, ?_, ?_, ?_, ?_, ?_⟩
      · rw [hg, foldl_updG_date]; rfl
      · rw [hg, foldl_updG_opn]; rfl
      · rw [hg, foldl_updG_high]; rfl
      · rw [hg, foldl_updG_low]; rfl
      · rw [hg, foldl_updG_close]
        cases hrl : rs.getLast? with
        | none =>
          have : rs = [] := by
            cases rs with
            | nil => rfl
            | cons a t => simp at hrl
          subst this
          exact ⟨r0, rfl, rfl⟩
        | some rl =>
          refine ⟨rl, ?_, rfl⟩
          cases rs with
          | nil => simp at hrl
          | cons a t => rw [List.getLast?_cons_cons, hrl]
      · rw [hg, foldl_updG_volume, List.map_cons, List.sum_cons]
        rfl
  · decide

/-- Witness for C1: the theorem applied to the seven-row scenario itself,
with every hypothesis discharged by evaluation. -/
theorem C1_kline_aggregation_witness :
    (("week" : String) = _get_aggregation_key "week"
      ∧ (("week" : String) = "week" ∨ ("week" : String) = "month" ∨ ("week" : String) = "year")
      ∧ (∀ r ∈ week7Rows, rowIncomplete r = false → (_get_group_key r.date "week").isSome)
      ∧ datesAscending week7Rows = true
      ∧ 1 ≤ 1)
    ∧ (∃ st, aggKlines week7Rows "week" = some st
      ∧ get_stock_kline_core week7Rows "week" 1
          = some (((st.reverse.take 1).map Prod.snd).map grpToCandle)
      ∧ akeys st = firstSeen (bucketKeys week7Rows "week")
      ∧ (∀ k g, alookup k st = some g →
          ∃ r0 rs, bucketRows week7Rows "week" k = r0 :: rs
            ∧ g.date = r0.date
            ∧ g.opn = _safe_float r0.opn
            ∧ g.high = (rs.map fun r => _safe_float r.high).foldl max (_safe_float r0.high)
            ∧ g.low = (rs.map fun r => _safe_float r.low).foldl min (_safe_float r0.low)
            ∧ (∃ rl, (r0 :: rs).getLast? = some rl ∧ g.close = _safe_float rl.close)
            ∧ g.volume = ((r0 :: rs).map fun r => (r.volume).getD 0).sum)
      ∧ get_stock_kline_core week7Rows "week" 1
          = some [⟨"2024-01-01", 10, 17, 9, 16, 700⟩]) :=
  ⟨⟨by decide, by decide, by decide, by decide, by decide⟩,
    C1_kline_aggregation week7Rows "week" 1 "week" (by decide) (by decide)
      (by decide) (by decide) (by decide)⟩

theorem mkRat_eq_div' (n : Int) (d : Nat) : mkRat n d = (n : ℚ) / (d : ℚ) := by
  rw [Rat.mkRat_eq_divInt, Rat.divInt_eq_div]
  norm_cast

/-- C3: `parse_number` strips thousands separators, the currency symbol
and `%`, applies case-insensitive final-character suffix multipliers
`T→1e12, B→1e9, M→1e6, K→1e3`, returns null on the sentinel tokens
(empty, `n/a`, `-`, em-dash, `None`, `N/A`) and on any other unparseable
input, and in particular maps `"1.05M"` to `1050000.0`, `"939.04K"` to
`939040.0` and the em-dash to null.  (Each clause is checked by
evaluation; rationals are exact, and the corresponding IEEE-754 results
agree on these inputs.) -/
theorem C3_parse_number_clauses :
    parse_number "1.05M" = some 1050000
    ∧ parse_number "939.04K" = some 939040
    ∧ parse_number "—" = none
    ∧ parse_number "" = none
    ∧ parse_number "n/a" = none
    ∧ parse_number "-" = none
    ∧ parse_number "None" = none
    ∧ parse_number "N/A" = none
    ∧ parse_number "$1,234.5" = some (mkRat 12345 10)
    ∧ parse_number "45%" = some 45
    ∧ parse_number "2.5T" = some 2500000000000
    ∧ parse_number "3b" = some 3000000000
    ∧ parse_number "1.5k" = some 1500
    ∧ parse_number "1.05m" = some 1050000
    ∧ parse_number "abc" = none
    ∧ parse_number "1.2.3" = none
    ∧ parse_number "1M5" = none
    ∧ parse_number " 42 " = some 42 := by
  decide

/-- C4: `_pct` divides by 100 when the token contains `%`, otherwise
returns the value unchanged when `|value| ≤ 1.5` and divides by 100 when
it is larger; with the claim's three examples. -/
theorem C4_parse_percent
    (s : String) (v : ℚ) (hf : _f (.s s) = some v) :
    _pct (.s s) = some
      (if memC '%' (stripC s.toList) then v / 100
        else if |v| ≤ 3 / 2 then v else v / 100)
    ∧ (∀ t : String, _f (.s t) = none → _pct (.s t) = none)
    ∧ _pct (.s "25.88%") = some (mkRat 2588 10000)
    ∧ _pct (.s "0.12") = some (mkRat 12 100)
    ∧ _pct (.s "45") = some (mkRat 45 100) := by
  refine ⟨?_, ?_, by decide, by decide, by decide⟩
  · have hq : qdivNat v 100 = v / 100 := by
      rw [qdivNat_eq v 100 (by norm_num)]
      norm_num
    have habs : (qle (qabs v) (mkRat 3 2) = true) ↔ |v| ≤ 3 / 2 := by
      rw [qle_iff, qabs_eq, mkRat_eq_div']
      norm_num
    rw [show _pct (.s s) = (match _f (.s s) with
        | none => none
        | some raw =>
          if pctMark (.s s) then some (qdivNat raw 100)
          else if qle (qabs raw) (mkRat 3 2) then some raw
          else some (qdivNat raw 100)) from rfl, hf]
    rw [show pctMark (.s s) = memC '%' (stripC s.toList) from rfl]
    show (if memC '%' (stripC s.toList) = true then some (qdivNat v 100)
        else if qle (qabs v) (mkRat 3 2) = true then some v
        else some (qdivNat v 100))
      = some (if memC '%' (stripC s.toList) = true then v / 100
          else if |v| ≤ 3 / 2 then v else v / 100)
    rw [hq]
    by_cases hp : memC '%' (stripC s.toList)
    · rw [if_pos hp, if_pos hp]
    · rw [if_neg hp, if_neg hp]
      by_cases hle : |v| ≤ 3 / 2
      · rw [if_pos (habs.2 hle), if_pos hle]
      · rw [if_neg (fun hc => hle (habs.1 hc)), if_neg hle]
  · intro t ht
    rw [show _pct (.s t) = (match _f (.s t) with
        | none => none
        | some raw =>
          if pctMark (.s t) then some (qdivNat raw 100)
          else if qle (qabs raw) (mkRat 3 2) then some raw
          else some (qdivNat raw 100)) from rfl, ht]

/-- Witness for C4 at the token `"45"`. -/
theorem C4_parse_percent_witness :
    _f (.s "45") = some 45
    ∧ _pct (.s "45") = some
      (if memC '%' (stripC "45".toList) then (45 : ℚ) / 100
        else if |(45 : ℚ)| ≤ 3 / 2 then 45 else 45 / 100) :=
  ⟨by decide, (C4_parse_percent "45" 45 (by decide)).1⟩

/-- A date string accepted by the kline grouping key: it parses under
`%Y-%m-%d` or, failing that, under `%m/%d/%Y`. -/
def klineDateOk (d : String) : Bool :=
  ((strptimeYmd d).orElse fun _ => strptimeMdy d).isSome

theorem group_key_total (d : String) (agg : String) (h : klineDateOk d = true) :
    (_get_group_key d agg).isSome := by
  rw [_get_group_key]
  rcases Option.isSome_iff_exists.1 (by simpa [klineDateOk] using h) with ⟨dt, hdt⟩
  rw [hdt]
  by_cases h1 : agg = "week"
  · simp [h1]
  · by_cases h2 : agg = "month"
    · simp [h1, h2]
    · by_cases h3 : agg = "year" <;> simp [h1, h2, h3]

/-- C9: the grouping-key helper is partial — a stored date in neither
`%Y-%m-%d` nor `%m/%d/%Y` format makes week/month/year aggregation raise
(modelled as `none`) instead of skipping the row; and aggregation is
total whenever every stored date is in one of the two formats. -/
theorem C9_group_key_partiality :
    (_get_group_key "2024/01/01" "week" = none
      ∧ get_stock_kline_core
          [⟨"2024/01/01", some 1, some 2, some 1, some 2, some 3⟩] "week" 5 = none)
    ∧ (∀ (rows : List KRow) (interval : String) (limit : Nat),
        (∀ r ∈ rows, klineDateOk r.date = true) →
        (get_stock_kline_core rows interval limit).isSome) := by
  refine ⟨⟨by decide, by decide⟩, ?_⟩
  intro rows interval limit h
  rw [get_stock_kline_core]
  by_cases hday : _get_aggregation_key interval = "day"
  · simp [hday]
  · have htot := aggKlines_eq_fold rows (_get_aggregation_key interval)
      (fun r hr _ => group_key_total r.date _ (h r hr))
    simp [hday, htot]

/-- Witness for C9: totality applied to the seven-row scenario. -/
theorem C9_group_key_partiality_witness :
    (∀ r ∈ week7Rows, klineDateOk r.date = true)
    ∧ (get_stock_kline_core week7Rows "month" 4).isSome :=
  ⟨by decide, C9_group_key_partiality.2 week7Rows "month" 4 (by decide)⟩

/-- C10: `_optional_float` maps every falsy value — `None` and `0` alike
— to null, so an income statement stored with a field equal to `0` is
formatted identically to one where the field is absent: at the API
surface a reported zero is indistinguishable from a missing value. -/
theorem C10_optional_float_zero :
    (_optional_float (some 0) = none ∧ _optional_float none = none)
    ∧ (∀ q : ℚ, q ≠ 0 → _optional_float (some q) = some q)
    ∧ (∀ r : ISOut,
        format_income_statement (some { r with revenue := some 0 })
          = format_income_statement (some { r with revenue := none }))
    ∧ (∀ r : ISOut,
        format_income_statement (some { r with net_income := some 0 })
          = format_income_statement (some { r with net_income := none })) := by
  refine ⟨⟨by decide, rfl⟩, ?_, ?_, ?_⟩
  · intro q hq
    simp [_optional_float, hq]
  · intro r
    simp [format_income_statement, _optional_float]
  · intro r
    simp [format_income_statement, _optional_float]

/-- Witness for C10 at a concrete statement row and the value 1. -/
theorem C10_optional_float_zero_witness :
    ((1 : ℚ) ≠ 0 ∧ _optional_float (some 1) = some 1)
    ∧ format_income_statement (some
        { id := 1, stock_id := 2, period_ending := "2024-12-31", period_type := "FY",
          revenue := some 0, operating_revenue := none, other_revenue := none,
          revenue_growth_yoy := none, cost_of_revenue := none, gross_profit := none,
          sga_expenses := none, operating_income := none, ebitda := none, ebit := none,
          interest_expense := none, pretax_income := none, income_tax := none,
          net_income := some 5, net_income_growth_yoy := none, eps_basic := none,
          eps_diluted := none, eps_growth_yoy := none, dividend_per_share := none,
          shares_basic := none, shares_diluted := none })
      = format_income_statement (some
        { id := 1, stock_id := 2, period_ending := "2024-12-31", period_type := "FY",
          revenue := none, operating_revenue := none, other_revenue := none,
          revenue_growth_yoy := none, cost_of_revenue := none, gross_profit := none,
          sga_expenses := none, operating_income := none, ebitda := none, ebit := none,
          interest_expense := none, pretax_income := none, income_tax := none,
          net_income := some 5, net_income_growth_yoy := none, eps_basic := none,
          eps_diluted := none, eps_growth_yoy := none, dividend_per_share := none,
          shares_basic := none, shares_diluted := none }) :=
  ⟨⟨by decide, C10_optional_float_zero.2.1 1 (by decide)⟩,
    C10_optional_float_zero.2.2.1
      { id := 1, stock_id := 2, period_ending := "2024-12-31", period_type := "FY",
        revenue := some 0, operating_revenue := none, other_revenue := none,
        revenue_growth_yoy := none, cost_of_revenue := none, gross_profit := none,
        sga_expenses := none, operating_income := none, ebitda := none, ebit := none,
        interest_expense := none, pretax_income := none, income_tax := none,
        net_income := some 5, net_income_growth_yoy := none, eps_basic := none,
        eps_diluted := none, eps_growth_yoy := none, dividend_per_share := none,
        shares_basic := none, shares_diluted := none } ⟩

theorem idMatch_applyFields (sid : Nat) (pe : PDate) (pt : String)
    (p : PeriodDict) (r : ISRow) :
    idMatch sid pe pt (applyFields p r) = idMatch sid pe pt r := rfl

theorem applyFields_applyFields (p : PeriodDict) (r : ISRow) :
    applyFields p (applyFields p r) = applyFields p r := rfl

theorem idMatch_freshRow (sid : Nat) (pe : PDate) (pt : String) :
    idMatch sid pe pt (freshRow sid pe pt) = true := by
  simp [idMatch, freshRow]

theorem upsertList_countId (sid : Nat) (pe : PDate) (pt : String) (p : PeriodDict) :
    ∀ table, countId sid pe pt (upsertList sid pe pt p table)
      = if countId sid pe pt table = 0 then 1 else countId sid pe pt table := by
  intro table
  induction table with
  | nil =>
    simp [upsertList, countId, List.filter_cons, idMatch, applyFields, freshRow]
  | cons r rest ih =>
    by_cases hm : idMatch sid pe pt r
    · have h2 : idMatch sid pe pt (applyFields p r) = true := by
        rw [idMatch_applyFields]; exact hm
      simp [upsertList, hm, countId, List.filter_cons, h2]
    · have hmf : idMatch sid pe pt r = false := by simpa using hm
      simp only [upsertList, hmf, Bool.false_eq_true, if_false]
      simp only [countId, List.filter_cons, hmf, Bool.false_eq_true, if_false]
      exact ih

theorem upsertList_length (sid : Nat) (pe : PDate) (pt : String) (p : PeriodDict) :
    ∀ table, (upsertList sid pe pt p table).length
      = if countId sid pe pt table = 0 then table.length + 1 else table.length := by
  intro table
  induction table with
  | nil => simp [upsertList, countId, List.filter_cons, idMatch, applyFields, freshRow]
  | cons r rest ih =>
    by_cases hm : idMatch sid pe pt r
    · simp [upsertList, hm, countId, List.filter_cons]
    · have hmf : idMatch sid pe pt r = false := by simpa using hm
      simp only [upsertList, hmf, Bool.false_eq_true, if_false, List.length_cons,
        countId, List.filter_cons]
      rw [show countId sid pe pt rest
          = (List.filter (idMatch sid pe pt) rest).length from rfl] at ih
      rw [ih]
      by_cases hc : (List.filter (idMatch sid pe pt) rest).length = 0
      · simp [hc]
      · simp [hc]

theorem upsertList_idem (sid : Nat) (pe : PDate) (pt : String) (p : PeriodDict) :
    ∀ table, upsertList sid pe pt p (upsertList sid pe pt p table)
      = upsertList sid pe pt p table := by
  intro table
  induction table with
  | nil =>
    simp only [upsertList]
    rw [show idMatch sid pe pt (applyFields p (freshRow sid pe pt)) = true from by
      simp [idMatch, applyFields, freshRow]]
    simp [applyFields_applyFields]
  | cons r rest ih =>
    by_cases hm : idMatch sid pe pt r
    · have h2 : idMatch sid pe pt (applyFields p r) = true := by
        rw [idMatch_applyFields]; exact hm
      simp [upsertList, hm, h2, applyFields_applyFields]
    · have hmf : idMatch sid pe pt r = false := by simpa using hm
      simp [upsertList, hmf, ih]

theorem upsertList_set (sid : Nat) (pe : PDate) (pt : String) (p : PeriodDict) :
    ∀ table r0, table.find? (idMatch sid pe pt) = some r0 →
      ∃ i, table.get? i = some r0
        ∧ upsertList sid pe pt p table = table.set i (applyFields p r0) := by
  intro table
  induction table with
  | nil => intro r0 h; simp at h
  | cons r rest ih =>
    intro r0 h
    by_cases hm : idMatch sid pe pt r
    · rw [List.find?_cons_of_pos _ hm] at h
      obtain rfl : r = r0 := by injection h
      exact ⟨0, rfl, by simp [upsertList, hm]⟩
    · have hmf : idMatch sid pe pt r = false := by simpa using hm
      rw [List.find?_cons_of_neg _ hm] at h
      obtain ⟨i, hi, hset⟩ := ih r0 h
      exact ⟨i + 1, hi, by simp [upsertList, hmf, hset]⟩

theorem upsertList_append (sid : Nat) (pe : PDate) (pt : String) (p : PeriodDict) :
    ∀ table, table.find? (idMatch sid pe pt) = none →
      upsertList sid pe pt p table = table ++ [applyFields p (freshRow sid pe pt)] := by
  intro table
  induction table with
  | nil => intro _; simp [upsertList, freshRow]
  | cons r rest ih =>
    intro h
    rw [List.find?_cons] at h
    by_cases hm : idMatch sid pe pt r
    · rw [hm] at h; simp at h
    · have hmf : idMatch sid pe pt r = false := by simpa using hm
      rw [hmf] at h
      simp [upsertList, hmf, ih h]

theorem upsertList_find? (sid : Nat) (pe : PDate) (pt : String) (p : PeriodDict) :
    ∀ table, (upsertList sid pe pt p table).find? (idMatch sid pe pt)
      = some (applyFields p
          ((table.find? (idMatch sid pe pt)).getD (freshRow sid pe pt))) := by
  intro table
  induction table with
  | nil =>
    simp only [upsertList, List.find?_nil, Option.getD_none]
    rw [List.find?_cons_of_pos _ (show idMatch sid pe pt
      (applyFields p (freshRow sid pe pt)) = true from by
        simp [idMatch, applyFields, freshRow])]
  | cons r rest ih =>
    by_cases hm : idMatch sid pe pt r
    · have h2 : idMatch sid pe pt (applyFields p r) = true := by
        rw [idMatch_applyFields]; exact hm
      simp [upsertList, hm, List.find?_cons_of_pos, h2]
    · have hmf : idMatch sid pe pt r = false := by simpa using hm
      simp only [upsertList, hmf, Bool.false_eq_true, if_false]
      rw [List.find?_cons_of_neg _ hm, List.find?_cons_of_neg _ hm]
      exact ih

theorem alookup_map_self {α : Type} (g : String → α) (l : List String) (f : String)
    (hf : f ∈ l) : alookup f (l.map fun x => (x, g x)) = some (g f) := by
  induction l with
  | nil => cases hf
  | cons x t ih =>
    by_cases hx : x = f
    · subst hx; simp [alookup]
    · rcases List.mem_cons.1 hf with h | h
      · exact absurd h.symm hx
      · simp [alookup, hx, ih h]

/-- A stored row from a previous partial write: only `revenue` set. -/
def rowA : ISRow :=
  { stock_id := 1, period_ending := ⟨2024, 12, 31⟩, period_type := "FY",
    fields := [("revenue", some 100)], shares_basic := none, shares_diluted := none }

/-- A re-parse of the same identity in which every data field is null. -/
def nullReparse : PeriodDict :=
  { period_ending := some "2024-12-31", period_type := some "FY", vals := fun _ => none }

/-- Counterexample to C2 as stated: re-parsing the same
`(stock_id, period_ending, period_type)` with a null `revenue` erases the
stored non-null value `100` — the upsert's `setattr` loop writes
`_f(period.get(f))` unconditionally for every listed field. -/
theorem C2_counterexample :
    alookup "revenue" rowA.fields = some (some 100)
    ∧ upsert_income_periods [rowA] 1 [nullReparse]
        = [{ stock_id := 1, period_ending := ⟨2024, 12, 31⟩, period_type := "FY",
             fields := incomeFields.map (fun f => (f, (none : Option ℚ))),
             shares_basic := none, shares_diluted := none }]
    ∧ alookup "revenue"
        (((upsert_income_periods [rowA] 1 [nullReparse]).headD rowA).fields)
        = some none := by
  refine ⟨by decide, by decide, by decide⟩

/-- C2 amended: the period upsert overwrites every listed field with the
value parsed from the new input — last write wins — so a field that is
null in the re-parse ends up null in the stored row regardless of any
previously stored non-null value. -/
theorem C2_null_overwrite
    (table : List ISRow) (sid : Nat) (p : PeriodDict) (pe : PDate) (pt : String)
    (hpe : _parse_date p.period_ending = some pe)
    (hpt : p.period_type = some pt) (hne : pt ≠ "") :
    ∃ r, (upsert_income_periods table sid [p]).find? (idMatch sid pe pt) = some r
      ∧ r.fields = incomeFields.map (fun f => (f, _fOpt (p.vals f)))
      ∧ (∀ f ∈ incomeFields, p.vals f = none → alookup f r.fields = some none) := by
  have hred : upsert_income_periods table sid [p] = upsertList sid pe pt p table := by
    simp [upsert_income_periods, upsertOne, hpe, hpt, hne]
  rw [hred, upsertList_find? sid pe pt p table]
  refine ⟨_, rfl, rfl, ?_⟩
  intro f hf hnone
  rw [show (applyFields p ((table.find? (idMatch sid pe pt)).getD
        (freshRow sid pe pt))).fields
      = incomeFields.map (fun f => (f, _fOpt (p.vals f))) from rfl]
  rw [alookup_map_self (fun f => _fOpt (p.vals f)) incomeFields f hf, hnone]
  rfl

/-- Witness for the amended C2 at the partial row and the null re-parse. -/
theorem C2_null_overwrite_witness :
    (_parse_date nullReparse.period_ending = some ⟨2024, 12, 31⟩
      ∧ nullReparse.period_type = some "FY" ∧ ("FY" : String) ≠ "")
    ∧ ∃ r, (upsert_income_periods [rowA] 1 [nullReparse]).find?
          (idMatch 1 ⟨2024, 12, 31⟩ "FY") = some r
        ∧ r.fields = incomeFields.map (fun f => (f, _fOpt (nullReparse.vals f)))
        ∧ (∀ f ∈ incomeFields, nullReparse.vals f = none →
            alookup f r.fields = some none) :=
  ⟨⟨by decide, by decide, by decide⟩,
    C2_null_overwrite [rowA] 1 nullReparse ⟨2024, 12, 31⟩ "FY"
      (by decide) (by decide) (by decide)⟩

/-- C7: on every table and period record with a parseable identity, the
upsert updates the first matching row in place (no duplicate row is
created; the table grows only when no row matches), is idempotent on a
second call with the identical input, and tolerates a previous partial
write (the stored rows' field sets are unconstrained). -/
theorem C7_upsert_identity
    (table : List ISRow) (sid : Nat) (p : PeriodDict) (pe : PDate) (pt : String)
    (hpe : _parse_date p.period_ending = some pe)
    (hpt : p.period_type = some pt) (hne : pt ≠ "") :
    countId sid pe pt (upsert_income_periods table sid [p])
        = (if countId sid pe pt table = 0 then 1 else countId sid pe pt table)
    ∧ (upsert_income_periods table sid [p]).length
        = (if countId sid pe pt table = 0 then table.length + 1 else table.length)
    ∧ (∀ r0, table.find? (idMatch sid pe pt) = some r0 →
        ∃ i, table.get? i = some r0
          ∧ upsert_income_periods table sid [p] = table.set i (applyFields p r0))
    ∧ (table.find? (idMatch sid pe pt) = none →
        upsert_income_periods table sid [p]
          = table ++ [applyFields p (freshRow sid pe pt)])
    ∧ upsert_income_periods (upsert_income_periods table sid [p]) sid [p]
        = upsert_income_periods table sid [p] := by
  have hred : ∀ t : List ISRow,
      upsert_income_periods t sid [p] = upsertList sid pe pt p t := by
    intro t
    simp [upsert_income_periods, upsertOne, hpe, hpt, hne]
  simp only [hred]
  exact ⟨upsertList_countId sid pe pt p table, upsertList_length sid pe pt p table,
    upsertList_set sid pe pt p table, upsertList_append sid pe pt p table,
    upsertList_idem sid pe pt p table⟩

/-- Witness for C7 on a one-row table holding the matching fresh row. -/
theorem C7_upsert_identity_witness :
    (_parse_date nullReparse.period_ending = some ⟨2024, 12, 31⟩
      ∧ nullReparse.period_type = some "FY" ∧ ("FY" : String) ≠ "")
    ∧ (countId 1 ⟨2024, 12, 31⟩ "FY" (upsert_income_periods [rowA] 1 [nullReparse])
        = (if countId 1 ⟨2024, 12, 31⟩ "FY" [rowA] = 0 then 1
            else countId 1 ⟨2024, 12, 31⟩ "FY" [rowA])
      ∧ (upsert_income_periods [rowA] 1 [nullReparse]).length
        = (if countId 1 ⟨2024, 12, 31⟩ "FY" [rowA] = 0 then [rowA].length + 1
            else [rowA].length)
      ∧ (∀ r0, [rowA].find? (idMatch 1 ⟨2024, 12, 31⟩ "FY") = some r0 →
          ∃ i, [rowA].get? i = some r0
            ∧ upsert_income_periods [rowA] 1 [nullReparse]
                = [rowA].set i (applyFields nullReparse r0))
      ∧ ([rowA].find? (idMatch 1 ⟨2024, 12, 31⟩ "FY") = none →
          upsert_income_periods [rowA] 1 [nullReparse]
            = [rowA] ++ [applyFields nullReparse (freshRow 1 ⟨2024, 12, 31⟩ "FY")])
      ∧ upsert_income_periods (upsert_income_periods [rowA] 1 [nullReparse]) 1 [nullReparse]
          = upsert_income_periods [rowA] 1 [nullReparse]) :=
  ⟨⟨by decide, by decide, by decide⟩,
    C7_upsert_identity [rowA] 1 nullReparse ⟨2024, 12, 31⟩ "FY"
      (by decide) (by decide) (by decide)⟩

theorem alookup_aset_self {α : Type} (k : String) (v : α) (l : List (String × α)) :
    alookup k (aset k v l) = some v := by
  induction l with
  | nil => simp [aset, alookup]
  | cons hd tl ih =>
    obtain ⟨k0, v0⟩ := hd
    by_cases h0 : k0 = k
    · subst h0; simp [aset, alookup]
    · simp [aset, alookup, h0, ih]

theorem alookup_aset_ne {α : Type} (k k' : String) (v : α) (l : List (String × α))
    (h : k' ≠ k) : alookup k (aset k' v l) = alookup k l := by
  induction l with
  | nil => simp [aset, alookup, h]
  | cons hd tl ih =>
    obtain ⟨k0, v0⟩ := hd
    by_cases h0 : k0 = k'
    · subst h0; simp [aset, alookup, h]
    · simp [aset, alookup, h0, ih]

theorem alookup_buildRowGo_notmem (k : String) :
    ∀ (pds vals : List String) (acc : List (String × Option String)),
      k ∉ pds → alookup k (buildRowGo pds vals acc) = alookup k acc := by
  intro pds
  induction pds with
  | nil => intro vals acc _; rfl
  | cons pd rest ih =>
    intro vals acc hk
    rw [show buildRowGo (pd :: rest) vals acc
        = buildRowGo rest (vals.drop 1) (aset pd vals.head? acc) from rfl]
    rw [ih (vals.drop 1) _ (fun hc => hk (List.mem_cons_of_mem pd hc))]
    exact alookup_aset_ne k pd vals.head? acc (fun hc => hk (hc ▸ List.mem_cons_self pd rest))

theorem alookup_buildRow (pds : List String) :
    ∀ (values : List String) (acc : List (String × Option String))
      (i : Nat) (h : i < pds.length), pds.Nodup →
      alookup (pds.get ⟨i, h⟩) (buildRowGo pds values acc) = some (values.get? i) := by
  induction pds with
  | nil => intro values acc i h; cases h
  | cons pd rest ih =>
    intro values acc i h hnd
    obtain ⟨hpd, hndr⟩ := List.nodup_cons.1 hnd
    rw [show buildRowGo (pd :: rest) values acc
        = buildRowGo rest (values.drop 1) (aset pd values.head? acc) from rfl]
    cases i with
    | zero =>
      rw [show (pd :: rest).get ⟨0, h⟩ = pd from rfl]
      rw [alookup_buildRowGo_notmem pd rest (values.drop 1) _ hpd]
      rw [alookup_aset_self, List.get?_eq_getElem?]
      cases values <;> simp
    | succ j =>
      have hj : j < rest.length := Nat.lt_of_succ_lt_succ h
      rw [show (pd :: rest).get ⟨j + 1, h⟩ = rest.get ⟨j, hj⟩ from rfl]
      rw [ih (values.drop 1) _ j hj hndr]
      rw [List.get?_eq_getElem?, List.get?_eq_getElem?, List.getElem?_drop,
        Nat.add_comm 1 j]

/-- Counterexample to C5 as stated: with one period header (`TTM`) a value
line of four tokens (three more than headers) is **not** accepted — the
`len(values) <= num_cols + 2` guard rejects it, the label/value pair is
dropped, and the parsed table comes out empty. -/
theorem C5_counterexample :
    _parse_fin_table "TTM\nRevenue\n1 2 3 4" = []
    ∧ alookup "Revenue" (_parse_fin_table "TTM\nRevenue\n1 2 3 4") = none := by
  exact ⟨by decide, by decide⟩

/-- C5 amended: a value line with more whitespace tokens than period
headers is accepted only while the excess is at most two (tolerating up
to two footnote-marker tokens) — with three or more extra tokens the
label/value pair is dropped; when accepted, the tokens are zipped
positionally, one per header index, and the extra trailing tokens are
ignored. -/
theorem C5_value_row_tolerance
    (pds : List String) (numCols : Nat) (label vline : String)
    (rest : List String) (acc : List (String × List (String × Option String)))
    (hlab : numOnlyLine label = false) :
    (((splitWsC vline.toList).map String.mk) ≠ [] → hasNumTok vline = true →
      ((splitWsC vline.toList).map String.mk).length ≤ numCols + 2 →
      parseRows pds numCols (label :: vline :: rest) acc
        = parseRows pds numCols rest
            (aset label (buildRow pds ((splitWsC vline.toList).map String.mk)) acc))
    ∧ (numCols + 2 < ((splitWsC vline.toList).map String.mk).length →
      parseRows pds numCols (label :: vline :: rest) acc
        = parseRows pds numCols (vline :: rest) acc)
    ∧ (∀ i (h : i < pds.length), pds.Nodup →
        alookup (pds.get ⟨i, h⟩)
            (buildRow pds ((splitWsC vline.toList).map String.mk))
          = some (((splitWsC vline.toList).map String.mk).get? i))
    ∧ _parse_fin_table "TTM\nRevenue\n1 2 3"
        = [("Revenue", [("TTM", some "1")])] := by
  refine ⟨?_, ?_, ?_, by decide⟩
  · intro hne hnum hlen
    rw [show parseRows pds numCols (label :: vline :: rest) acc
        = (if numOnlyLine label then parseRows pds numCols (vline :: rest) acc
          else
            if ¬ ((splitWsC vline.toList).map String.mk).isEmpty
                ∧ hasNumTok vline
                ∧ ((splitWsC vline.toList).map String.mk).length ≤ numCols + 2 then
              parseRows pds numCols rest
                (aset label (buildRow pds ((splitWsC vline.toList).map String.mk)) acc)
            else parseRows pds numCols (vline :: rest) acc) from rfl]
    rw [if_neg (by simp [hlab]), if_pos ⟨by simpa using hne, hnum, hlen⟩]
  · intro hgt
    rw [show parseRows pds numCols (label :: vline :: rest) acc
        = (if numOnlyLine label then parseRows pds numCols (vline :: rest) acc
          else
            if ¬ ((splitWsC vline.toList).map String.mk).isEmpty
                ∧ hasNumTok vline
                ∧ ((splitWsC vline.toList).map String.mk).length ≤ numCols + 2 then
              parseRows pds numCols rest
                (aset label (buildRow pds ((splitWsC vline.toList).map String.mk)) acc)
            else parseRows pds numCols (vline :: rest) acc) from rfl]
    rw [if_neg (by simp [hlab]), if_neg (fun hc => absurd hc.2.2 (by omega))]
  · intro i h hnd
    exact alookup_buildRow pds ((splitWsC vline.toList).map String.mk) [] i h hnd

/-- Witness for the amended C5: one header, value line of three tokens. -/
theorem C5_value_row_tolerance_witness :
    (numOnlyLine "Revenue" = false
      ∧ ((splitWsC "1 2 3".toList).map String.mk) ≠ []
      ∧ hasNumTok "1 2 3" = true
      ∧ ((splitWsC "1 2 3".toList).map String.mk).length ≤ 1 + 2)
    ∧ parseRows ["TTM"] 1 ["Revenue", "1 2 3"] []
        = parseRows ["TTM"] 1 []
            (aset "Revenue" (buildRow ["TTM"] ((splitWsC "1 2 3".toList).map String.mk)) []) :=
  ⟨⟨by decide, by decide, by decide, by decide⟩,
    (C5_value_row_tolerance ["TTM"] 1 "Revenue" "1 2 3" [] [] (by decide)).1
      (by decide) (by decide) (by decide)⟩

/-- Counterexample to C6 as stated: the observed label `"rev"` is
contained in the canonical key `"revenue"`, so the claimed two-direction
substring match would resolve the row — but `_get` only tests whether the
canonical key is contained in the label, and returns null. -/
theorem C6_counterexample :
    containsC (lowerC "rev".toList) (lowerC "revenue".toList) = true
    ∧ _get [("rev", [("TTM", some "5")])] "revenue" "TTM" false = none := by
  exact ⟨by decide, by decide⟩

/-- C6 amended: the label lookup tries an exact key match first; failing
that it scans the table in insertion (priority) order and takes the first
row whose observed label contains the canonical key case-insensitively —
only that one direction.  (The two-direction substring fallback exists
only at the period level, inside `rowResolve`.)  `_match_label` likewise
returns the first mapping entry whose key occurs inside the lowercased
observed label. -/
theorem C6_label_partial_match :
    (∀ (table : List (String × List (String × Option String))) (rk p : String)
      (b : Bool) (r : List (String × Option String)),
      alookup rk table = some r → _get table rk p b = rowResolve r p b)
    ∧ (∀ (table : List (String × List (String × Option String))) (rk p : String)
      (b : Bool),
      alookup rk table = none →
      _get table rk p b
        = (match table.find? (fun kv =>
              containsC (lowerC rk.toList) (lowerC kv.1.toList)) with
          | some kv => rowResolve kv.2 p b
          | none => none))
    ∧ (∀ (pre post : List (String × List (String × Option String)))
      (k rk p : String) (rowv : List (String × Option String)) (b : Bool),
      alookup rk (pre ++ (k, rowv) :: post) = none →
      (∀ kv ∈ pre, containsC (lowerC rk.toList) (lowerC kv.1.toList) = false) →
      containsC (lowerC rk.toList) (lowerC k.toList) = true →
      _get (pre ++ (k, rowv) :: post) rk p b = rowResolve rowv p b)
    ∧ (∀ (label : String) (mapping : List (String × String)),
      _match_label label mapping
        = (mapping.find? (fun kv =>
            containsC kv.1.toList (lowerC label.toList))).map Prod.snd) := by
  have h1 : ∀ (table : List (String × List (String × Option String))) (rk p : String)
      (b : Bool) (r : List (String × Option String)),
      alookup rk table = some r → _get table rk p b = rowResolve r p b := by
    intro table rk p b r h
    simp [_get, h]
  have h2 : ∀ (table : List (String × List (String × Option String))) (rk p : String)
      (b : Bool),
      alookup rk table = none →
      _get table rk p b
        = (match table.find? (fun kv =>
              containsC (lowerC rk.toList) (lowerC kv.1.toList)) with
          | some kv => rowResolve kv.2 p b
          | none => none) := by
    intro table rk p b h
    rw [show _get table rk p b
        = (match (match alookup rk table with
            | some r => some r
            | none => (table.find? fun kv =>
                containsC (lowerC rk.toList) (lowerC kv.1.toList)).map Prod.snd) with
          | none => none
          | some r => rowResolve r p b) from rfl, h]
    cases table.find? fun kv => containsC (lowerC rk.toList) (lowerC kv.1.toList)
    · rfl
    · rfl
  refine ⟨h1, h2, ?_, ?_⟩
  · intro pre post k rk p rowv b hnone hpre hk
    rw [h2 _ _ _ _ hnone]
    rw [List.find?_append]
    rw [List.find?_eq_none.2 (fun kv hkv => by
      simpa [String.toList] using hpre kv hkv)]
    rw [Option.none_or, List.find?_cons_of_pos _ (by simpa using hk)]
  · intro label mapping
    induction mapping with
    | nil => rfl
    | cons hd rest ih =>
      obtain ⟨key, field⟩ := hd
      by_cases hc : containsC key.toList (lowerC label.toList)
      · rw [show _match_label label ((key, field) :: rest)
            = (if containsC key.toList (lowerC label.toList) then some field
              else _match_label label rest) from rfl]
        rw [if_pos hc, List.find?_cons_of_pos _ (by simpa using hc)]
        rfl
      · rw [show _match_label label ((key, field) :: rest)
            = (if containsC key.toList (lowerC label.toList) then some field
              else _match_label label rest) from rfl]
        rw [if_neg hc, List.find?_cons_of_neg _ (by simpa using hc), ih]

/-- Witness for the amended C6: the first fuzzy hit in priority order. -/
theorem C6_label_partial_match_witness :
    (alookup "revenue" [("Price", [("TTM", some "1")]),
        ("Total Revenue", [("TTM", some "7")])] = none
      ∧ (∀ kv ∈ [(("Price" : String), [(("TTM" : String), some "1")])],
          containsC (lowerC "revenue".toList) (lowerC kv.1.toList) = false)
      ∧ containsC (lowerC "revenue".toList) (lowerC "Total Revenue".toList) = true)
    ∧ _get [("Price", [("TTM", some "1")]), ("Total Revenue", [("TTM", some "7")])]
        "revenue" "TTM" false
      = rowResolve [("TTM", some "7")] "TTM" false :=
  ⟨⟨by decide, by decide, by decide⟩,
    C6_label_partial_match.2.2.1 [("Price", [("TTM", some "1")])] []
      "Total Revenue" "revenue" "TTM" [("TTM", some "7")] false
      (by decide) (by decide) (by decide)⟩

theorem pySign_decomp (cs cs1 : List Char) (neg : Bool) (h : pySign cs = (neg, cs1)) :
    ∃ sign0, cs = sign0 ++ cs1 ∧ ∀ c ∈ sign0, c = '+' ∨ c = '-' := by
  cases cs with
  | nil =>
    simp only [pySign] at h
    injection h with _ h2
    exact ⟨[], by rw [← h2]; rfl, by simp⟩
  | cons c r =>
    by_cases hp : c = '+'
    · subst hp
      simp only [pySign, if_pos rfl] at h
      injection h with _ h2
      exact ⟨['+'], by rw [h2]; rfl, by simp⟩
    · by_cases hm : c = '-'
      · subst hm
        simp only [pySign, hp, if_false, if_pos rfl] at h
        injection h with _ h2
        exact ⟨['-'], by rw [h2]; rfl, by simp⟩
      · simp only [pySign, hp, hm, if_false] at h
        injection h with _ h2
        exact ⟨[], by rw [h2]; rfl, by simp⟩

theorem spanC_decomp (p : Char → Bool) (l ip rest : List Char)
    (h : spanC p l = (ip, rest)) :
    l = ip ++ rest ∧ ∀ c ∈ ip, p c = true := by
  rw [spanC, List.span_eq_take_drop] at h
  injection h with h1 h2
  subst h1
  subst h2
  exact ⟨(List.takeWhile_append_dropWhile p l).symm,
    fun c hc => List.mem_takeWhile_imp hc⟩

theorem pyExp_chars (cs : List Char) (e : Int) (h : pyExp cs = some (e, [])) :
    ∀ c ∈ cs, isDig c = true ∨ c = 'e' ∨ c = 'E' ∨ c = '+' ∨ c = '-' := by
  cases cs with
  | nil => intro c hc; cases hc
  | cons c0 r =>
    by_cases he : c0 = 'e' ∨ c0 = 'E'
    · rw [show pyExp (c0 :: r)
          = (if c0 = 'e' ∨ c0 = 'E' then
              let (es, r1) := pySign r
              let (ds, r2) := spanC isDig r1
              if ds.isEmpty then none
              else some ((if es then -(natOfDigits ds : Int) else (natOfDigits ds : Int)), r2)
            else some (0, c0 :: r)) from rfl, if_pos he] at h
      rcases hps : pySign r with ⟨es, r1⟩
      rw [hps] at h
      dsimp only at h
      rcases hsp : spanC isDig r1 with ⟨ds, r2⟩
      rw [hsp] at h
      dsimp only at h
      by_cases hds : ds.isEmpty
      · rw [if_pos hds] at h
        exact absurd h (by simp)
      · rw [if_neg hds] at h
        injection h with h1
        have hr2 : r2 = [] := congrArg Prod.snd h1
        obtain ⟨sign0, hr, hsign⟩ := pySign_decomp r r1 es hps
        obtain ⟨hr1, hdig⟩ := spanC_decomp isDig r1 ds r2 hsp
        intro c hc
        rcases List.mem_cons.1 hc with hc0 | hcr
        · subst hc0
          rcases he with h | h
          · exact Or.inr (Or.inl h)
          · exact Or.inr (Or.inr (Or.inl h))
        · rw [hr] at hcr
          rcases List.mem_append.1 hcr with hs | h1'
          · rcases hsign c hs with h | h
            · exact Or.inr (Or.inr (Or.inr (Or.inl h)))
            · exact Or.inr (Or.inr (Or.inr (Or.inr h)))
          · rw [hr1, hr2, List.append_nil] at h1'
            exact Or.inl (hdig c h1')
    · rw [show pyExp (c0 :: r)
          = (if c0 = 'e' ∨ c0 = 'E' then
              let (es, r1) := pySign r
              let (ds, r2) := spanC isDig r1
              if ds.isEmpty then none
              else some ((if es then -(natOfDigits ds : Int) else (natOfDigits ds : Int)), r2)
            else some (0, c0 :: r)) from rfl, if_neg he] at h
      injection h with h1
      have : c0 :: r = [] := congrArg Prod.snd h1
      cases this

/-- A successful `float()` parse only ever consumes sign, digit, decimal
point and exponent-marker characters: every character of the stripped
input lies in that set. -/
theorem pyFloat_chars (s : String) (q : ℚ) (h : pyFloat s = some q) :
    ∀ c ∈ stripC s.toList,
      isDig c = true ∨ c = '.' ∨ c = '+' ∨ c = '-' ∨ c = 'e' ∨ c = 'E' := by
  rw [show pyFloat s
      = (match pySign (stripC s.toList) with
        | (neg, cs1) =>
          match spanC isDig cs1 with
          | (ip, cs2) =>
            match (match cs2 with | '.' :: r => spanC isDig r | r => ([], r)),
                (match cs2 with | '.' :: _ => true | _ => false) with
            | (fp, cs3), hasDot =>
              if ip.isEmpty ∧ (fp.isEmpty ∨ ¬hasDot) then none
              else
                match pyExp cs3 with
                | none => none
                | some (e, rest) =>
                  if rest.isEmpty then some (pyLitVal neg ip fp e) else none) from rfl] at h
  rcases hps : pySign (stripC s.toList) with ⟨neg, cs1⟩
  rw [hps] at h
  try dsimp only at h
  rcases hsp : spanC isDig cs1 with ⟨ip, cs2⟩
  rw [hsp] at h
  try dsimp only at h
  obtain ⟨sign0, hcs, hsign⟩ := pySign_decomp _ _ _ hps
  obtain ⟨hcs1, hip⟩ := spanC_decomp isDig cs1 ip cs2 hsp
  have main : ∀ (fp cs3 : List Char), cs2 = fp ++ cs3 ∨ cs2 = '.' :: (fp ++ cs3) →
      (∀ c ∈ fp, isDig c = true) →
      (match pyExp cs3 with
        | none => (none : Option ℚ)
        | some (e, rest) =>
          if rest.isEmpty then some (pyLitVal neg ip fp e) else none) = some q →
      ∀ c ∈ stripC s.toList,
        isDig c = true ∨ c = '.' ∨ c = '+' ∨ c = '-' ∨ c = 'e' ∨ c = 'E' := by
    intro fp cs3 hsplit hfp hmatch
    rcases hpe : pyExp cs3 with _ | ⟨e, rest⟩
    · rw [hpe] at hmatch
      exact absurd hmatch (by simp)
    · rw [hpe] at hmatch
      dsimp only at hmatch
      by_cases hrest : rest.isEmpty
      · have hrnil : rest = [] := by simpa [List.isEmpty_iff] using hrest
        subst hrnil
        have hexp := pyExp_chars cs3 e hpe
        intro c hc
        rw [hcs] at hc
        rcases List.mem_append.1 hc with hs | h1
        · rcases hsign c hs with h' | h'
          · exact Or.inr (Or.inr (Or.inl h'))
          · exact Or.inr (Or.inr (Or.inr (Or.inl h')))
        · rw [hcs1] at h1
          rcases List.mem_append.1 h1 with h2 | h2
          · exact Or.inl (hip c h2)
          · have h3 : c ∈ fp ++ cs3 ∨ c = '.' := by
              rcases hsplit with hs2 | hs2
              · rw [hs2] at h2; exact Or.inl h2
              · rw [hs2] at h2
                rcases List.mem_cons.1 h2 with hdot | hrest2
                · exact Or.inr hdot
                · exact Or.inl hrest2
            rcases h3 with h4 | h4
            · rcases List.mem_append.1 h4 with h5 | h5
              · exact Or.inl (hfp c h5)
              · rcases hexp c h5 with h6 | h6 | h6 | h6 | h6
                · exact Or.inl h6
                · exact Or.inr (Or.inr (Or.inr (Or.inr (Or.inl h6))))
                · exact Or.inr (Or.inr (Or.inr (Or.inr (Or.inr h6))))
                · exact Or.inr (Or.inr (Or.inl h6))
                · exact Or.inr (Or.inr (Or.inr (Or.inl h6)))
            · exact Or.inr (Or.inl h4)
      · rw [if_neg hrest] at hmatch
        exact absurd hmatch (by simp)
  cases hcs2 : cs2 with
  | nil =>
    rw [hcs2] at h
    try dsimp only at h
    split at h
    · exact absurd h (by simp)
    · exact main [] [] (Or.inl (by simp [hcs2])) (by simp) h
  | cons c2 r2 =>
    by_cases hdot : c2 = '.'
    · subst hdot
      rw [hcs2] at h
      rw [show (match ('.' :: r2 : List Char) with
            | '.' :: r => spanC isDig r | r => ([], r)) = spanC isDig r2 from by
          split
          · rename_i r heq
            injection heq with _ h2
            rw [h2]
          · rename_i hne
            exact absurd rfl (hne r2)] at h
      rw [show (match ('.' :: r2 : List Char) with
            | '.' :: _ => true | _ => false) = true from by
          split
          · rfl
          · rename_i hne
            exact absurd rfl (hne r2)] at h
      rcases hsp2 : spanC isDig r2 with ⟨fp, cs3⟩
      rw [hsp2] at h
      try dsimp only at h
      obtain ⟨hr2, hfp⟩ := spanC_decomp isDig r2 fp cs3 hsp2
      split at h
      · exact absurd h (by simp)
      · exact main fp cs3 (Or.inr (by rw [hcs2, hr2])) hfp h
    · rw [hcs2] at h
      rw [show (match (c2 :: r2 : List Char) with
            | '.' :: r => spanC isDig r | r => ([], r)) = ([], c2 :: r2) from by
          split
          · rename_i r heq
            injection heq with h1 _
            exact absurd h1 hdot
          · rfl] at h
      rw [show (match (c2 :: r2 : List Char) with
            | '.' :: _ => true | _ => false) = false from by
          split
          · rename_i heq
            injection heq with h1 _
            exact absurd h1 hdot
          · rfl] at h
      split at h
      · exact absurd h (by simp)
      · exact main [] (c2 :: r2) (Or.inl (by simp [hcs2])) (by simp) h

theorem mem_dropWhile_of_not {p : Char → Bool} {c : Char} {l : List Char}
    (hc : c ∈ l) (hp : p c = false) : c ∈ l.dropWhile p := by
  have hsplit : l.takeWhile p ++ l.dropWhile p = l := List.takeWhile_append_dropWhile p l
  rw [← hsplit] at hc
  rcases List.mem_append.1 hc with h | h
  · have := List.mem_takeWhile_imp h
    rw [hp] at this
    cases this
  · exact h

theorem mem_stripC {c : Char} {l : List Char} (hc : c ∈ l) (hw : pyWs c = false) :
    c ∈ stripC l := by
  rw [stripC]
  rw [List.mem_reverse]
  apply mem_dropWhile_of_not _ hw
  rw [List.mem_reverse]
  exact mem_dropWhile_of_not hc hw

theorem memC_iff (t : Char) (l : List Char) : memC t l = true ↔ t ∈ l := by
  induction l with
  | nil => simp [memC]
  | cons x r ih =>
    simp only [memC, List.any_cons] at *
    constructor
    · intro h
      rcases Bool.or_eq_true_iff.1 h with h1 | h1
      · have hx : x = t := by simpa using h1
        exact hx ▸ List.mem_cons_self x r
      · exact List.mem_cons_of_mem x (by simpa [memC] using h1)
    · intro h
      rcases List.mem_cons.1 h with h1 | h1
      · subst h1; simp
      · simp [ih.2 h1, memC]

theorem pyFloat_none_of_K (s : String)
    (h : ('K' ∈ stripC s.toList) ∨ ('k' ∈ stripC s.toList)) :
    pyFloat s = none := by
  cases hp : pyFloat s with
  | none => rfl
  | some q =>
    exfalso
    rcases h with h | h
    · have := pyFloat_chars s q hp 'K' h
      revert this
      decide
    · have := pyFloat_chars s q hp 'k' h
      revert this
      decide

theorem startsC_single (c : Char) (l : List Char) :
    startsC [c] l = true ↔ l.head? = some c := by
  cases l with
  | nil => simp [startsC]
  | cons x r =>
    simp only [startsC, List.head?_cons, Option.some_inj]
    constructor
    · intro h
      have hx : c = x := by simpa using h
      exact hx.symm
    · intro h
      simp [h]

/-- Counterexample to C8 as stated: `parse_number` accepts the K suffix
but `_parse_scale`'s multiplier table has only T, B and M, so the same
K-suffixed token parses to null. -/
theorem C8_counterexample :
    parse_number "939.04K" = some 939040 ∧ _parse_scale "939.04K" = some none := by
  exact ⟨by decide, by decide⟩

/-- C8 amended: `_parse_scale` recognises only the `T`, `B`, `M` suffixes
(case-insensitively, results in millions; a bare number passes through);
any token whose cleaned form still contains `K` or `k` — in particular
every K-suffixed numeric token accepted by `parse_number` — yields null. -/
theorem C8_scale_suffixes :
    (_parse_scale "22.21T" = some (some 22210000)
      ∧ _parse_scale "8.68B" = some (some 8680)
      ∧ _parse_scale "500M" = some (some 500)
      ∧ _parse_scale "1,234" = some (some 1234)
      ∧ _parse_scale "2.5t" = some (some 2500000)
      ∧ _parse_scale "1.5k" = some none)
    ∧ (∀ s w : String, s ≠ "" → _strip_change s = some w →
        (memC 'K' (stripC (removeAllC ',' w.toList)) = true
          ∨ memC 'k' (stripC (removeAllC ',' w.toList)) = true) →
        _parse_scale s = some none) := by
  refine ⟨⟨by decide, by decide, by decide, by decide, by decide, by decide⟩, ?_⟩
  intro s w hs hw hk
  have hKmem : ∃ c, (c = 'K' ∨ c = 'k') ∧ c ∈ stripC (removeAllC ',' w.toList) := by
    rcases hk with h | h
    · exact ⟨'K', Or.inl rfl, (memC_iff _ _).1 h⟩
    · exact ⟨'k', Or.inr rfl, (memC_iff _ _).1 h⟩
  obtain ⟨c, hck, hcmem⟩ := hKmem
  have hws : pyWs c = false := by rcases hck with rfl | rfl <;> decide
  rw [show _parse_scale s
      = (if s = "" then some none
        else match _strip_change s with
        | none => none
        | some v0 =>
          let v := String.mk (stripC (removeAllC ',' v0.toList))
          if v = "n/a" ∨ v = "-" ∨ v = "—" ∨ v = "N/A" ∨ v = "" then some none
          else
            let cs := v.toList
            let up := cs.map upC
            if endsC ['T'] up then
              some ((pyFloat (String.mk (cs.dropLast))).map (fun q => qmulNat q 1000000))
            else if endsC ['B'] up then
              some ((pyFloat (String.mk (cs.dropLast))).map (fun q => qmulNat q 1000))
            else if endsC ['M'] up then
              some ((pyFloat (String.mk (cs.dropLast))).map (fun q => qmulNat q 1))
            else some (pyFloat v)) from rfl, if_neg hs, hw]
  dsimp only
  have hU : (String.mk (stripC (removeAllC ',' w.toList))).toList
      = stripC (removeAllC ',' w.toList) := rfl
  have hcU : c ∈ (String.mk (stripC (removeAllC ',' w.toList))).toList := by
    rw [hU]; exact hcmem
  have hendsLast : ∀ t : Char,
      endsC [t] ((String.mk (stripC (removeAllC ',' w.toList))).toList.map upC) = true →
      ((String.mk (stripC (removeAllC ',' w.toList))).toList.map upC).getLast? = some t := by
    intro t ht
    rw [← List.head?_reverse]
    exact (startsC_single t _).1 ht
  have hdropNone : ∀ t : Char,
      ((String.mk (stripC (removeAllC ',' w.toList))).toList.map upC).getLast? = some t →
      upC c ≠ t →
      pyFloat (String.mk
        ((String.mk (stripC (removeAllC ',' w.toList))).toList.dropLast)) = none := by
    intro t hlastT hct
    rw [List.getLast?_map] at hlastT
    obtain ⟨lc, hlc, hlcT⟩ := Option.map_eq_some'.1 hlastT
    have hcnelc : c ≠ lc := fun he => hct (by rw [he, hlcT])
    have hnil : (String.mk (stripC (removeAllC ',' w.toList))).toList ≠ [] := by
      intro hn
      rw [hn] at hcU
      cases hcU
    have hcdrop : c ∈ (String.mk (stripC (removeAllC ',' w.toList))).toList.dropLast := by
      have hsplit := List.dropLast_concat_getLast hnil
      have hlast2 : (String.mk (stripC (removeAllC ',' w.toList))).toList.getLast hnil = lc := by
        have := List.getLast?_eq_getLast _ hnil
        rw [hlc] at this
        injection this with h1
        exact h1.symm
      rw [← hsplit] at hcU
      rcases List.mem_append.1 hcU with h1 | h1
      · exact h1
      · rw [hlast2] at h1
        rcases List.mem_cons.1 h1 with h2 | h2
        · exact absurd h2 hcnelc
        · cases h2
    apply pyFloat_none_of_K
    rcases hck with rfl | rfl
    · exact Or.inl (mem_stripC hcdrop hws)
    · exact Or.inr (mem_stripC hcdrop hws)
  by_cases hsent : (String.mk (stripC (removeAllC ',' w.toList)) = "n/a"
      ∨ String.mk (stripC (removeAllC ',' w.toList)) = "-"
      ∨ String.mk (stripC (removeAllC ',' w.toList)) = "—"
      ∨ String.mk (stripC (removeAllC ',' w.toList)) = "N/A"
      ∨ String.mk (stripC (removeAllC ',' w.toList)) = "")
  · rw [if_pos hsent]
  · rw [if_neg hsent]
    by_cases hT : endsC ['T']
        ((String.mk (stripC (removeAllC ',' w.toList))).toList.map upC)
    · rw [if_pos hT,
        hdropNone 'T' (hendsLast 'T' hT) (by rcases hck with rfl | rfl <;> decide)]
      rfl
    · rw [if_neg hT]
      by_cases hB : endsC ['B']
          ((String.mk (stripC (removeAllC ',' w.toList))).toList.map upC)
      · rw [if_pos hB,
          hdropNone 'B' (hendsLast 'B' hB) (by rcases hck with rfl | rfl <;> decide)]
        rfl
      · rw [if_neg hB]
        by_cases hM : endsC ['M']
            ((String.mk (stripC (removeAllC ',' w.toList))).toList.map upC)
        · rw [if_pos hM,
            hdropNone 'M' (hendsLast 'M' hM) (by rcases hck with rfl | rfl <;> decide)]
          rfl
        · rw [if_neg hM]
          rw [pyFloat_none_of_K _ (by
            rcases hck with rfl | rfl
            · exact Or.inl (mem_stripC hcU hws)
            · exact Or.inr (mem_stripC hcU hws))]

/-- Witness for the amended C8 on the claim's own K token. -/
theorem C8_scale_suffixes_witness :
    (("939.04K" : String) ≠ ""
      ∧ _strip_change "939.04K" = some "939.04K"
      ∧ memC 'K' (stripC (removeAllC ',' "939.04K".toList)) = true)
    ∧ _parse_scale "939.04K" = some none :=
  ⟨⟨by decide, by decide, by decide⟩,
    C8_scale_suffixes.2 "939.04K" "939.04K" (by decide) (by decide)
      (Or.inl (by decide))⟩
